import Mathlib

/-!
# 7date: a shallow embedding of `7date.c`

The program prints the day of the year in base 7, optionally truncated to a
week or a 7month, followed or preceded by the year.

Modelling conventions.

* A C string is the list of its characters before the terminating NUL
  (`CStr`).  `strlen` is `List.length`.
* `int` is 32 bits wide; values of type `int` are `Int`s, and a theorem about
  an `int` argument carries the bounds `INT_MIN ≤ n ≤ INT_MAX` where they
  matter.  `size_t` is 64 bits wide.
* The static buffers have a fixed capacity.  A write that does not fit, or a
  read or write through a pointer outside its object, is undefined behaviour
  in C; the functions that can do so return `Option`, with `none` standing
  for undefined behaviour.
* The clock, the file system and `localtime` are parameters (`Env`).
-/

namespace SevenDate

/-! ## Strings and machine integers -/

/-- A C string: its characters before the terminator. -/
abbrev CStr := List Char

/-- The macro `BUF_SIZE`. -/
def BUF_SIZE : Nat := 64

/-- Largest value of a 32-bit `int`. -/
def INT_MAX : Int := 2147483647

/-- Smallest value of a 32-bit `int`. -/
def INT_MIN : Int := -2147483648

/-- Conversion of an integer value to a 64-bit `size_t` (reduction modulo `2^64`). -/
def to_size_t (x : Int) : Int := x % 18446744073709551616

/-- Conversion of an integer value to a 32-bit two's complement `int`. -/
def to_int (x : Int) : Int := (x + 2147483648) % 4294967296 - 2147483648

/-- The call `strcpy(dst, src)` where `dst` is the start of a buffer of `cap`
bytes: defined when `src` and its terminator fit. -/
def strcpy (cap : Nat) (src : CStr) : Option CStr :=
  if src.length + 1 ≤ cap then some src else none

/-- The call `strcat(dst, src)` where `dst` is a buffer of `cap` bytes that
holds the string `dst`: defined when the concatenation and its terminator fit. -/
def strcat (cap : Nat) (dst src : CStr) : Option CStr :=
  if dst.length + src.length + 1 ≤ cap then some (dst ++ src) else none

/-- The call `strcpy(buf + off, src)` where `buf` is a buffer of `cap` bytes that
holds the string `buf`: defined when the bytes written lie inside the buffer.
The string then held by the buffer keeps the first `off` characters of `buf`
(if it had that many) and continues with `src`. -/
def strcpy_at (cap : Nat) (buf : CStr) (off : Int) (src : CStr) : Option CStr :=
  if 0 ≤ off ∧ off + src.length + 1 ≤ cap then
    (if off.toNat ≤ buf.length then some (buf.take off.toNat ++ src) else some buf)
  else none

/-- The assignment `buf[idx] = c` on a buffer holding the string `buf`, for an
index that is at most `strlen(buf) - 1`: defined when the index is not negative
(computed in `size_t`, a negative index is far outside the buffer). -/
def set_char (buf : CStr) (idx : Int) (c : Char) : Option CStr :=
  if 0 ≤ idx ∧ idx < buf.length then some (buf.set idx.toNat c) else none

/-- The conversion `%d` of `printf`: decimal digits, with a minus sign for a
negative number. -/
def fmt_d (n : Int) : CStr :=
  if n < 0 then '-' :: Nat.toDigits 10 n.natAbs else Nat.toDigits 10 n.toNat

/-! ## Types and globals -/

/-- The enumeration `Scope`. -/
inductive Scope where
  | scope_day
  | scope_week
  | scope_7month
  deriving DecidableEq, Repr

/-- The integer value of an enumerator. -/
def Scope.val : Scope → Nat
  | .scope_day => 0
  | .scope_week => 1
  | .scope_7month => 2

/-- The globals `scope`, `do_use_digital_form` and `filepath`. -/
structure Globals where
  scope : Scope
  do_use_digital_form : Int
  filepath : Option CStr
  deriving DecidableEq, Repr

/-- The initial values of the globals. -/
def Globals.init : Globals :=
  { scope := .scope_day, do_use_digital_form := 0, filepath := none }

/-! ## `print_usage` -/

/-- The text printed by `print_usage`. -/
def usage_text : CStr :=
  "Usage:\n\n".toList ++
  "  7date [-d] [--week|--7month] [filepath]\n\n".toList ++
  "Available options:\n".toList ++
  "  -d        Use digital notation; better for sorting / filtering.\n".toList ++
  "  --week    Print with week precision; for example, 12-.2016.\n".toList ++
  "  --7month  Print with 7month precision; for example, 1--.2016.\n".toList

/-! ## `base_7_str` -/

/-- The loop of `base_7_str`.  The first argument counts the cells of `buf` at
or below the pointer `c`, that is `c - buf + 1`: it is `0` exactly when
`c < buf`.  The last argument is the string that starts right after `c`
(the digits written so far; the terminator sits in the last cell of `buf`).
The result is the final `n`, the final count for `c`, and the string after `c`. -/
def base_7_loop : Nat → Int → CStr → Int × Nat × CStr
  | 0, n, acc => (n, 0, acc)
  | free + 1, n, acc =>
    if n > 0 then
      base_7_loop free (Int.tdiv n 7)
        (Char.ofNat ('0'.toNat + (Int.tmod n 7).toNat) :: acc)
    else (n, free + 1, acc)

/-- The function `base_7_str`.  After `*c-- = 0` the pointer `c` is
`buf + BUF_SIZE - 2`, so `BUF_SIZE - 1` cells lie at or below it. -/
def base_7_str (n : Int) : CStr :=
  if n < 0 then []
  else if n = 0 then ['0']
  else
    let r := base_7_loop (BUF_SIZE - 1) n []
    if r.2.1 = 0 then [] else r.2.2

/-! ## `to_scope` -/

/-- The value of `prefix_len` in `to_scope` after the clamp: the difference
`scope - strlen(date_str) + 1` is computed in `size_t`, converted to `int`, and
replaced by `0` when negative. -/
def to_scope_prefix_len (date_str : CStr) (scope : Scope) : Int :=
  let prefix_len := to_int (to_size_t ((scope.val : Int) - (date_str.length : Int) + 1))
  if prefix_len < 0 then 0 else prefix_len

/-- The string read at `prefix + 2 - prefix_len`, where `prefix` is the
literal of two zeros: defined when the pointer stays inside the literal. -/
def to_scope_prefix (prefix_len : Int) : Option CStr :=
  if 0 ≤ 2 - prefix_len ∧ 2 - prefix_len ≤ 2 then
    some (['0', '0'].drop (2 - prefix_len).toNat)
  else none

/-- The loop of `to_scope` that writes the dashes: the first argument is the
number of iterations left (`scope - i`), the second is `i`. -/
def to_scope_loop : Nat → Nat → CStr → Option CStr
  | 0, _, out_str => some out_str
  | todo + 1, i, out_str =>
    match set_char out_str ((out_str.length : Int) - 1 - (i : Int)) '-' with
    | none => none
    | some out_str1 => to_scope_loop todo (i + 1) out_str1

/-- The function `to_scope`; `out_str` has 5 bytes. -/
def to_scope (date_str : CStr) (scope : Scope) : Option CStr :=
  match to_scope_prefix (to_scope_prefix_len date_str scope) with
  | none => none
  | some pre =>
    match strcpy 5 pre with
    | none => none
    | some out0 =>
      match strcat 5 out0 date_str with
      | none => none
      | some out1 => to_scope_loop scope.val 0 out1

/-! ## `zero_pad` -/

/-- The function `zero_pad`; `out_str` has 5 bytes. -/
def zero_pad (str : CStr) : Option CStr :=
  match strcpy 5 ['0', '0', '0', '0'] with
  | none => none
  | some out0 => strcpy_at 5 out0 (4 - (str.length : Int)) str

/-! ## `main` -/

/-- The fields of `struct tm` that the program reads. -/
structure Tm where
  tm_year : Int
  tm_yday : Int

/-- The environment of a run: `stat` gives the modification time of a path, or
`none` when it fails; `time` is the system clock; `localtime` converts. -/
structure Env where
  stat : CStr → Option Int
  time : Int
  localtime : Int → Tm

/-- What a run leaves behind: the text written to the standard output and the
exit code. -/
structure Result where
  stdout : CStr
  code : Int
  deriving DecidableEq, Repr

/-- The argument loop of `main` on the arguments after the program name.  An
`Except.error` carries the argument reported as unrecognized. -/
def parse_args : List CStr → Globals → Except CStr Globals
  | [], g => .ok g
  | arg :: rest, g =>
    if arg = "--week".toList then parse_args rest { g with scope := .scope_week }
    else if arg = "--7month".toList then parse_args rest { g with scope := .scope_7month }
    else if arg = "-d".toList then parse_args rest { g with do_use_digital_form := 1 }
    else
      match g.filepath with
      | some _ => .error arg
      | none => parse_args rest { g with filepath := some arg }

/-- The end of `main`: from `localtime` to the final `printf`. -/
def print_date (g : Globals) (t : Tm) : Option Result :=
  match to_scope (base_7_str t.tm_yday) g.scope with
  | none => none
  | some day_part =>
    if g.do_use_digital_form ≠ 0 then
      match zero_pad day_part with
      | none => none
      | some padded =>
        some { stdout := fmt_d (to_int (t.tm_year + 1900)) ++ ['-'] ++ padded ++ ['\n'],
               code := 0 }
    else
      some { stdout := day_part ++ ['.'] ++ fmt_d (to_int (t.tm_year + 1900)) ++ ['\n'],
             code := 0 }

/-- The choice of the time to display in `main`: the modification time of the
file when a path was given, the system clock otherwise.  An `Except.error`
carries the path whose `stat` failed. -/
def read_time (g : Globals) (env : Env) : Except CStr Int :=
  match g.filepath with
  | some path =>
    match env.stat path with
    | none => .error path
    | some mtime => .ok mtime
  | none => .ok env.time

/-- The function `main`, on the arguments after the program name. -/
def main (args : List CStr) (env : Env) : Option Result :=
  match parse_args args Globals.init with
  | .error arg =>
    some { stdout := "!Unrecognized argument: '".toList ++ arg ++ "'\n".toList ++ usage_text,
           code := 2 }
  | .ok g =>
    match read_time g env with
    | .error path =>
      some { stdout := "!Error reading the file info for '".toList ++ path ++
                       "'\n".toList ++ usage_text,
             code := 1 }
    | .ok time_sec => print_date g (env.localtime time_sec)

/-! ## Notions used to state the properties -/

/-- The number a string denotes when read as a base-7 numeral, most
significant digit first. -/
def base_7_val (s : CStr) : Int :=
  s.foldl (fun a c => a * 7 + ((c.toNat : Int) - ('0'.toNat : Int))) 0

/-- The rule of the specification for `applyScope`, with `k` the magnitude of
the scope: pad on the left with '0' up to `k + 1` characters, then replace the
last `k` characters by '-'. -/
def pad_then_overwrite (s : CStr) (k : Nat) : CStr :=
  let padded := List.replicate (k + 1 - s.length) '0' ++ s
  padded.take (padded.length - k) ++ List.replicate k '-'

/-- An environment without files whose clock reads the given year and day. -/
def env_at (tm_year tm_yday : Int) : Env :=
  { stat := fun _ => none, time := 0, localtime := fun _ => ⟨tm_year, tm_yday⟩ }

/-- Whether an argument is one of the three options of the program. -/
def is_flag (arg : CStr) : Bool :=
  arg = "--week".toList || arg = "--7month".toList || arg = "-d".toList

/-- The arguments that are not options, in their order. -/
def non_flags (args : List CStr) : List CStr :=
  args.filter (fun arg => !is_flag arg)

/-- Byte-wise order on strings, strict: the order of `strcmp`. -/
def str_lt : CStr → CStr → Bool
  | [], [] => false
  | [], _ :: _ => true
  | _ :: _, [] => false
  | a :: s, b :: t => decide (a.toNat < b.toNat) || (a.toNat == b.toNat && str_lt s t)

/-- Byte-wise order on strings. -/
def str_le : CStr → CStr → Bool
  | [], _ => true
  | _ :: _, [] => false
  | a :: s, b :: t => decide (a.toNat < b.toNat) || (a.toNat == b.toNat && str_le s t)

/-- The four characters that stand for the day `d` in digital notation. -/
def digital_day (scope : Scope) (d : Nat) : CStr :=
  match scope with
  | .scope_day =>
    [Nat.digitChar (d / 343), Nat.digitChar (d / 49 % 7), Nat.digitChar (d / 7 % 7),
      Nat.digitChar (d % 7)]
  | .scope_week =>
    [Nat.digitChar (d / 343), Nat.digitChar (d / 49 % 7), Nat.digitChar (d / 7 % 7), '-']
  | .scope_7month =>
    [Nat.digitChar (d / 343), Nat.digitChar (d / 49 % 7), '-', '-']

/-- The four digits of a year between 1000 and 9999. -/
def digital_year (y : Nat) : CStr :=
  [Nat.digitChar (y / 1000), Nat.digitChar (y / 100 % 10), Nat.digitChar (y / 10 % 10),
    Nat.digitChar (y % 10)]

/-- The arguments that select a scope, in their order. -/
def scope_flags (args : List CStr) : List CStr :=
  args.filter (fun arg => arg = "--week".toList || arg = "--7month".toList)

/-- The scope named by the last scope option of the list, or the given scope
when the list has no scope option. -/
def last_scope (args : List CStr) (default : Scope) : Scope :=
  match (scope_flags args).getLast? with
  | none => default
  | some flag => if flag = "--week".toList then .scope_week else .scope_7month

/-! ## Lemmas on `base_7_str` -/

/-- The digit character written by the loop body for a remainder. -/
theorem digit_char_cases (k : Nat) (hk : k < 7) :
    (Char.ofNat ('0'.toNat + k)).toNat = 48 + k ∧
    '0' ≤ Char.ofNat ('0'.toNat + k) ∧ Char.ofNat ('0'.toNat + k) ≤ '6' ∧
    (Char.ofNat ('0'.toNat + k) = '0' ↔ k = 0) := by
  interval_cases k <;> decide

theorem tmod_toNat_lt (n : Int) (hn : 0 ≤ n) :
    (Int.tmod n 7).toNat < 7 ∧ ((Int.tmod n 7).toNat : Int) = n % 7 ∧ Int.tdiv n 7 = n / 7 := by
  rw [Int.tmod_eq_emod hn (by norm_num), Int.tdiv_eq_ediv hn (by norm_num)]
  omega

theorem base_7_loop_fits (free : Nat) : ∀ (n : Int) (acc : CStr), 0 ≤ n → n < 7 ^ free →
    (base_7_loop (free + 1) n acc).1 = 0 ∧ 1 ≤ (base_7_loop (free + 1) n acc).2.1 := by
  induction free with
  | zero =>
    intro n acc h0 h1
    have : n = 0 := by simp at h1; omega
    subst this
    simp [base_7_loop]
  | succ f ih =>
    intro n acc h0 h1
    rw [base_7_loop]
    split
    · apply ih
      · rw [(tmod_toNat_lt n h0).2.2]; omega
      · rw [(tmod_toNat_lt n h0).2.2]
        rw [pow_succ] at h1
        omega
    · have : n = 0 := by omega
      simp [this]

theorem base_7_loop_digits (free : Nat) : ∀ (n : Int) (acc : CStr), 0 ≤ n →
    (base_7_loop free n acc).1 = 0 →
    ∃ ds : CStr, (base_7_loop free n acc).2.2 = ds ++ acc ∧ base_7_val ds = n ∧
      (∀ c ∈ ds, '0' ≤ c ∧ c ≤ '6') ∧ (n = 0 → ds = []) ∧
      (0 < n → ∃ c tl, ds = c :: tl ∧ c ≠ '0') := by
  induction free with
  | zero =>
    intro n acc h0 h1
    simp only [base_7_loop] at h1
    subst h1
    exact ⟨[], by simp [base_7_loop, base_7_val]⟩
  | succ f ih =>
    intro n acc h0 h1
    rw [base_7_loop] at h1 ⊢
    by_cases hn : n > 0
    · simp only [hn, if_true] at h1 ⊢
      obtain ⟨hlt, hmod, hdiv⟩ := tmod_toNat_lt n h0
      obtain ⟨hnat, hge, hle, hz⟩ := digit_char_cases _ hlt
      have h7 : 0 ≤ Int.tdiv n 7 := by rw [hdiv]; omega
      obtain ⟨ds, hds, hval, hall, hzero, hpos⟩ := ih _ _ h7 h1
      refine ⟨ds ++ [Char.ofNat ('0'.toNat + (Int.tmod n 7).toNat)], ?_, ?_, ?_, ?_, ?_⟩
      · rw [hds]; simp
      · unfold base_7_val at hval ⊢
        rw [List.foldl_append, hval]
        simp only [List.foldl_cons, List.foldl_nil, hnat]
        have : ('0'.toNat : Int) = 48 := by decide
        rw [this, hdiv]
        push_cast
        omega
      · intro c hc
        rcases List.mem_append.mp hc with h | h
        · exact hall c h
        · simp only [List.mem_singleton] at h
          subst h
          exact ⟨hge, hle⟩
      · intro h; omega
      · intro _
        by_cases hq : Int.tdiv n 7 = 0
        · rw [hzero hq]
          refine ⟨_, [], rfl, ?_⟩
          intro hc
          have := hz.mp hc
          rw [hdiv] at hq
          omega
        · obtain ⟨c, tl, hctl, hc⟩ := hpos (by omega)
          exact ⟨c, tl ++ [_], by rw [hctl]; rfl, hc⟩
    · have hn0 : n = 0 := by omega
      subst hn0
      exact ⟨[], by simp [base_7_val]⟩

theorem int_max_lt : INT_MAX < 7 ^ 62 := by
  unfold INT_MAX; norm_num

/-- What `base_7_str` returns for a positive `int`. -/
theorem base_7_str_pos (n : Int) (h0 : 0 < n) (h1 : n ≤ INT_MAX) :
    (base_7_loop (BUF_SIZE - 1) n []).2.1 ≠ 0 ∧
    base_7_val (base_7_str n) = n ∧ (∀ c ∈ base_7_str n, '0' ≤ c ∧ c ≤ '6') ∧
    ∃ c tl, base_7_str n = c :: tl ∧ c ≠ '0' := by
  have hfit := base_7_loop_fits 62 n [] (le_of_lt h0) (lt_of_le_of_lt h1 int_max_lt)
  have hB : BUF_SIZE - 1 = 62 + 1 := by decide
  rw [← hB] at hfit
  obtain ⟨ds, hds, hval, hall, -, hpos⟩ :=
    base_7_loop_digits (BUF_SIZE - 1) n [] (le_of_lt h0) hfit.1
  have hne : (base_7_loop (BUF_SIZE - 1) n []).2.1 ≠ 0 := by omega
  have hstr : base_7_str n = ds := by
    unfold base_7_str
    rw [if_neg (by omega), if_neg (by omega)]
    simp only [hne, if_false, hds, List.append_nil]
  rw [hstr]
  exact ⟨hne, hval, hall, hpos h0⟩

/-! ## The encoder -/

/-- C1: for every `int` n with n ≥ 0, reading the string returned by
`base_7_str n` as a base-7 numeral, most significant digit first, gives n. -/
theorem base_7_str_round_trip (n : Int) (h0 : 0 ≤ n) (h1 : n ≤ INT_MAX) :
    base_7_val (base_7_str n) = n := by
  rcases eq_or_lt_of_le h0 with h | h
  · subst h; decide
  · exact (base_7_str_pos n h h1).2.1

/-- Witness of C1 at the last day of a leap year. -/
theorem base_7_str_round_trip_witness :
    (0 : Int) ≤ 366 ∧ (366 : Int) ≤ INT_MAX ∧ base_7_str 366 = ['1', '0', '3', '2'] ∧
    base_7_val (base_7_str 366) = 366 :=
  ⟨by decide, by decide, by decide, base_7_str_round_trip 366 (by decide) (by decide)⟩

/-- C2: for every `int` n ≥ 1 the string `base_7_str n` is not empty, all its
characters lie between '0' and '6', and its first character is not '0'; an
output of `base_7_str` that starts with '0' is the string "0", returned for
n = 0 only. -/
theorem base_7_str_canonical (n : Int) (h1 : n ≤ INT_MAX) :
    (1 ≤ n → (∀ c ∈ base_7_str n, '0' ≤ c ∧ c ≤ '6') ∧ base_7_str n ≠ [] ∧
      (base_7_str n).head? ≠ some '0') ∧
    ((base_7_str n).head? = some '0' → n = 0 ∧ base_7_str n = ['0']) := by
  constructor
  · intro hn
    obtain ⟨-, -, hall, c, tl, hctl, hc⟩ := base_7_str_pos n (by omega) h1
    refine ⟨hall, ?_, ?_⟩
    · rw [hctl]; simp
    · rw [hctl]; simpa using hc
  · intro hhead
    rcases lt_trichotomy n 0 with h | h | h
    · simp [base_7_str, h] at hhead
    · subst h; exact ⟨rfl, by decide⟩
    · obtain ⟨-, -, -, c, tl, hctl, hc⟩ := base_7_str_pos n h h1
      rw [hctl] at hhead
      simp at hhead
      exact absurd hhead hc

/-- Witness of C2 at day 31 and at day 0. -/
theorem base_7_str_canonical_witness :
    (31 : Int) ≤ INT_MAX ∧ (1 : Int) ≤ 31 ∧
    ((∀ c ∈ base_7_str 31, '0' ≤ c ∧ c ≤ '6') ∧ base_7_str 31 ≠ [] ∧
      (base_7_str 31).head? ≠ some '0') ∧
    base_7_str 31 = ['4', '3'] ∧
    ((base_7_str 0).head? = some '0' ∧ base_7_str 0 = ['0']) :=
  ⟨by decide, by decide, (base_7_str_canonical 31 (by decide)).1 (by decide), by decide,
    by decide, by decide⟩

/-- C3: for every 32-bit `int` n, `base_7_str n` is the empty string exactly
when n < 0, `base_7_str 0` is "0", and for n > 0 the loop ends with `c` inside
the buffer, so that the guard `c < buf` after the loop is not taken. -/
theorem base_7_str_empty_iff (n : Int) (h0 : INT_MIN ≤ n) (h1 : n ≤ INT_MAX) :
    (base_7_str n = [] ↔ n < 0) ∧ base_7_str 0 = ['0'] ∧
    (0 < n → (base_7_loop (BUF_SIZE - 1) n []).2.1 ≠ 0) := by
  have _ := h0
  refine ⟨⟨?_, ?_⟩, by decide, ?_⟩
  · intro he
    by_contra hn
    rcases eq_or_lt_of_le (not_lt.mp hn) with h | h
    · subst h; exact absurd he (by decide)
    · obtain ⟨-, -, -, c, tl, hctl, -⟩ := base_7_str_pos n h h1
      rw [hctl] at he
      exact absurd he (by simp)
  · intro hn
    simp [base_7_str, hn]
  · intro hn
    exact (base_7_str_pos n hn h1).1

/-- Witness of C3 at the largest `int`, which needs twelve digits. -/
theorem base_7_str_empty_iff_witness :
    INT_MIN ≤ INT_MAX ∧ INT_MAX ≤ INT_MAX ∧ base_7_str INT_MAX ≠ [] ∧
    (base_7_str INT_MAX).length = 12 ∧ base_7_str (-1) = [] ∧
    0 < INT_MAX ∧ (base_7_loop (BUF_SIZE - 1) INT_MAX []).2.1 ≠ 0 :=
  ⟨by decide, by decide, by decide, by decide, by decide, by decide,
    (base_7_str_empty_iff INT_MAX (by decide) (by decide)).2.2 (by decide)⟩

/-! ## The formatter -/

/-- Without wrap-around the clamped `prefix_len` is `scope + 1 - strlen`, or `0`
when that is negative. -/
theorem to_scope_prefix_len_eq (s : CStr) (scope : Scope) (h : s.length ≤ 2147483647) :
    to_scope_prefix_len s scope = ((scope.val + 1 - s.length : Nat) : Int) := by
  unfold to_scope_prefix_len to_int to_size_t
  have : scope.val ≤ 2 := by cases scope <;> decide
  simp only
  split <;> omega

theorem to_scope_short (s : CStr) (scope : Scope) (hlen : s.length ≤ 4)
    (hne : s ≠ [] ∨ scope ≠ .scope_7month) :
    to_scope s scope = some (pad_then_overwrite s scope.val) := by
  unfold to_scope
  rw [to_scope_prefix_len_eq s scope (by omega)]
  match s, hlen, hne with
  | [], _, hne =>
    cases scope
    · rfl
    · rfl
    · simp at hne
  | [a], _, _ => cases scope <;> rfl
  | [a, b], _, _ => cases scope <;> rfl
  | [a, b, c], _, _ => cases scope <;> rfl
  | [a, b, c, d], _, _ => cases scope <;> rfl
  | _ :: _ :: _ :: _ :: _ :: _, h, _ => simp at h

/-- C4 (amended): for every string s of at most 4 characters and every scope of
magnitude k, the empty string under `scope_7month` apart, `to_scope s scope` is s
padded on the left with max(0, k + 1 - len s) characters '0' and with its last
k characters replaced by '-'; its length is max(len s, k + 1); and when
len s ≥ k + 1 it has the length of s, agrees with s on all but the last k
characters and ends with k dashes. -/
theorem to_scope_pad_then_overwrite (s : CStr) (scope : Scope) (hlen : s.length ≤ 4)
    (hne : s ≠ [] ∨ scope ≠ .scope_7month) :
    ∃ r, to_scope s scope = some r ∧ r = pad_then_overwrite s scope.val ∧
      r.length = max s.length (scope.val + 1) ∧
      (scope.val + 1 ≤ s.length → r.length = s.length ∧
        r.take (s.length - scope.val) = s.take (s.length - scope.val) ∧
        r.drop (s.length - scope.val) = List.replicate scope.val '-') := by
  refine ⟨_, to_scope_short s scope hlen hne, rfl, ?_, ?_⟩
  · match s, hlen, hne with
    | [], _, _ => cases scope <;> rfl
    | [a], _, _ => cases scope <;> rfl
    | [a, b], _, _ => cases scope <;> rfl
    | [a, b, c], _, _ => cases scope <;> rfl
    | [a, b, c, d], _, _ => cases scope <;> rfl
    | _ :: _ :: _ :: _ :: _ :: _, h, _ => simp at h
  · intro hk
    match s, hlen, hk with
    | [], _, hk => simp at hk
    | [a], _, hk => cases scope <;> first | exact ⟨rfl, rfl, rfl⟩ | simp [Scope.val] at hk
    | [a, b], _, hk => cases scope <;> first | exact ⟨rfl, rfl, rfl⟩ | simp [Scope.val] at hk
    | [a, b, c], _, _ => cases scope <;> exact ⟨rfl, rfl, rfl⟩
    | [a, b, c, d], _, _ => cases scope <;> exact ⟨rfl, rfl, rfl⟩
    | _ :: _ :: _ :: _ :: _ :: _, h, _ => simp at h

/-- Witness of C4 (amended): the two examples of the specification. -/
theorem to_scope_pad_then_overwrite_witness :
    to_scope "5".toList .scope_week = some "0-".toList ∧
    to_scope "52".toList .scope_week = some "5-".toList ∧
    ("52".toList.length ≤ 4 ∧ ("52".toList ≠ [] ∨ Scope.scope_week ≠ .scope_7month) ∧
      Scope.scope_week.val + 1 ≤ "52".toList.length ∧
      ∃ r, to_scope "52".toList .scope_week = some r ∧
        r = pad_then_overwrite "52".toList Scope.scope_week.val ∧
        r.length = max "52".toList.length (Scope.scope_week.val + 1) ∧
        r.length = "52".toList.length ∧
        r.take ("52".toList.length - Scope.scope_week.val)
          = "52".toList.take ("52".toList.length - Scope.scope_week.val) ∧
        r.drop ("52".toList.length - Scope.scope_week.val)
          = List.replicate Scope.scope_week.val '-') := by
  obtain ⟨r, h1, h2, h3, h4⟩ :=
    to_scope_pad_then_overwrite "52".toList .scope_week (by decide) (by decide)
  exact ⟨by decide, by decide, by decide, by decide, by decide,
    r, h1, h2, h3, h4 (by decide)⟩

/-- C4 as stated fails: a string of five digits does not fit the 5-byte
`out_str` of `to_scope`, and for the empty string under `scope_7month` the
pointer `prefix + 2 - prefix_len` leaves the literal; in both cases the call has
no defined result, while the rule of the claim gives one. -/
theorem to_scope_pad_then_overwrite_counterexample :
    to_scope "12345".toList .scope_day = none ∧
    pad_then_overwrite "12345".toList Scope.scope_day.val = "12345".toList ∧
    to_scope [] .scope_7month = none ∧
    pad_then_overwrite [] Scope.scope_7month.val = "0--".toList ∧
    ¬ (∀ (s : CStr) (scope : Scope), to_scope s scope = some (pad_then_overwrite s scope.val)) :=
  ⟨by decide, by decide, by decide, by decide,
    fun h => absurd (h "12345".toList .scope_day) (by decide)⟩

/-- C5 (amended): for every string s of 1 to 4 characters,
`to_scope s scope_day` is s. -/
theorem to_scope_day_identity (s : CStr) (h1 : 1 ≤ s.length) (h4 : s.length ≤ 4) :
    to_scope s .scope_day = some s := by
  rw [to_scope_short s .scope_day h4 (Or.inr (by decide))]
  match s, h1, h4 with
  | [], h, _ => simp at h
  | [a], _, _ => rfl
  | [a, b], _, _ => rfl
  | [a, b, c], _, _ => rfl
  | [a, b, c, d], _, _ => rfl
  | _ :: _ :: _ :: _ :: _ :: _, _, h => simp at h

/-- Witness of C5 (amended) on the encoding of day 31. -/
theorem to_scope_day_identity_witness :
    1 ≤ (base_7_str 31).length ∧ (base_7_str 31).length ≤ 4 ∧
    to_scope (base_7_str 31) .scope_day = some (base_7_str 31) :=
  ⟨by decide, by decide, to_scope_day_identity (base_7_str 31) (by decide) (by decide)⟩

/-- C5 as stated fails on the empty string, which `to_scope` pads to one
character under `scope_day`. -/
theorem to_scope_day_identity_counterexample :
    to_scope [] .scope_day = some ['0'] ∧ to_scope [] .scope_day ≠ some [] ∧
    base_7_str (-1) = [] ∧
    ¬ (∀ s : CStr, to_scope s .scope_day = some s) :=
  ⟨by decide, by decide, by decide, fun h => absurd (h []) (by decide)⟩

/-- C6: for every string s of at most 4 characters, `zero_pad s` is
4 - len s characters '0' followed by s, and has exactly 4 characters. -/
theorem zero_pad_short (s : CStr) (h : s.length ≤ 4) :
    ∃ r, zero_pad s = some r ∧ r = List.replicate (4 - s.length) '0' ++ s ∧ r.length = 4 := by
  match s, h with
  | [], _ => exact ⟨_, rfl, rfl, rfl⟩
  | [a], _ => exact ⟨_, rfl, rfl, rfl⟩
  | [a, b], _ => exact ⟨_, rfl, rfl, rfl⟩
  | [a, b, c], _ => exact ⟨_, rfl, rfl, rfl⟩
  | [a, b, c, d], _ => exact ⟨_, rfl, rfl, rfl⟩
  | _ :: _ :: _ :: _ :: _ :: _, h => simp at h

/-- Witness of C6: the three examples of the specification. -/
theorem zero_pad_short_witness :
    zero_pad "5".toList = some "0005".toList ∧ zero_pad "123".toList = some "0123".toList ∧
    zero_pad "1234".toList = some "1234".toList ∧
    ("123".toList.length ≤ 4 ∧ ∃ r, zero_pad "123".toList = some r ∧
      r = List.replicate (4 - "123".toList.length) '0' ++ "123".toList ∧ r.length = 4) :=
  ⟨by decide, by decide, by decide, by decide, zero_pad_short "123".toList (by decide)⟩

/-! ## The output of `main` -/

theorem to_int_id (x : Int) (h0 : INT_MIN ≤ x) (h1 : x ≤ INT_MAX) : to_int x = x := by
  unfold to_int
  unfold INT_MIN at h0
  unfold INT_MAX at h1
  omega

theorem pad_then_overwrite_length (s : CStr) (k : Nat) :
    (pad_then_overwrite s k).length = max s.length (k + 1) := by
  simp only [pad_then_overwrite, List.length_append, List.length_take, List.length_replicate]
  omega

set_option maxRecDepth 100000 in
/-- The encoding of a day of the year has 1 to 4 digits. -/
theorem base_7_str_length_cal_nat :
    ∀ d : Nat, d < 367 →
      1 ≤ (base_7_str (d : Int)).length ∧ (base_7_str (d : Int)).length ≤ 4 := by
  decide

theorem base_7_str_length_cal (d : Int) (h0 : 0 ≤ d) (h1 : d ≤ 366) :
    1 ≤ (base_7_str d).length ∧ (base_7_str d).length ≤ 4 := by
  have h := base_7_str_length_cal_nat d.toNat (by omega)
  rwa [Int.toNat_of_nonneg h0] at h

/-- On the encoding of a day of the year `to_scope` is defined and its result
has 1 to 4 characters. -/
theorem to_scope_cal (d : Int) (h0 : 0 ≤ d) (h1 : d ≤ 366) (scope : Scope) :
    ∃ r, to_scope (base_7_str d) scope = some r ∧ 1 ≤ r.length ∧ r.length ≤ 4 := by
  obtain ⟨hl1, hl4⟩ := base_7_str_length_cal d h0 h1
  have hne : base_7_str d ≠ [] := by
    intro h; rw [h] at hl1; simp at hl1
  refine ⟨_, to_scope_short _ scope hl4 (Or.inl hne), ?_, ?_⟩
  · rw [pad_then_overwrite_length]; omega
  · rw [pad_then_overwrite_length]
    have : scope.val ≤ 2 := by cases scope <;> decide
    omega

theorem zero_pad_some (s : CStr) (h : s.length ≤ 4) :
    ∃ r, zero_pad s = some r ∧ r.length = 4 := by
  match s, h with
  | [], _ => exact ⟨_, rfl, rfl⟩
  | [a], _ => exact ⟨_, rfl, rfl⟩
  | [a, b], _ => exact ⟨_, rfl, rfl⟩
  | [a, b, c], _ => exact ⟨_, rfl, rfl⟩
  | [a, b, c, d], _ => exact ⟨_, rfl, rfl⟩
  | _ :: _ :: _ :: _ :: _ :: _, h => simp at h

theorem print_date_standard (g : Globals) (t : Tm) (r : CStr)
    (hr : to_scope (base_7_str t.tm_yday) g.scope = some r)
    (hstd : g.do_use_digital_form = 0)
    (h0 : INT_MIN ≤ t.tm_year + 1900) (h1 : t.tm_year + 1900 ≤ INT_MAX) :
    print_date g t = some ⟨r ++ ['.'] ++ fmt_d (t.tm_year + 1900) ++ ['\n'], 0⟩ := by
  unfold print_date
  rw [hr, to_int_id _ h0 h1]
  simp only [hstd, ne_eq, not_true_eq_false, if_false]

theorem print_date_digital (g : Globals) (t : Tm) (r p : CStr)
    (hr : to_scope (base_7_str t.tm_yday) g.scope = some r)
    (hp : zero_pad r = some p)
    (hdig : g.do_use_digital_form ≠ 0)
    (h0 : INT_MIN ≤ t.tm_year + 1900) (h1 : t.tm_year + 1900 ≤ INT_MAX) :
    print_date g t = some ⟨fmt_d (t.tm_year + 1900) ++ ['-'] ++ p ++ ['\n'], 0⟩ := by
  unfold print_date
  rw [hr, to_int_id _ h0 h1]
  simp only [hdig, ne_eq, not_false_eq_true, if_true, hp]

theorem main_of_time (args : List CStr) (env : Env) (g : Globals) (time_sec : Int)
    (hparse : parse_args args Globals.init = .ok g)
    (htime : read_time g env = .ok time_sec) :
    main args env = print_date g (env.localtime time_sec) := by
  unfold main
  rw [hparse]
  simp only
  rw [htime]


/-- C7: when the digital flag is not set and the day of the year is in 0..366,
the program prints `to_scope (base_7_str d) scope`, then '.', then the year
`tm_year + 1900` in decimal, and ends the line; it exits with code 0. -/
theorem main_standard_notation (args : List CStr) (env : Env) (g : Globals) (time_sec : Int)
    (hparse : parse_args args Globals.init = .ok g)
    (htime : read_time g env = .ok time_sec)
    (hstd : g.do_use_digital_form = 0)
    (hday : 0 ≤ (env.localtime time_sec).tm_yday ∧ (env.localtime time_sec).tm_yday ≤ 366)
    (hyear : INT_MIN ≤ (env.localtime time_sec).tm_year + 1900 ∧
      (env.localtime time_sec).tm_year + 1900 ≤ INT_MAX) :
    ∃ day_part, to_scope (base_7_str (env.localtime time_sec).tm_yday) g.scope = some day_part ∧
      main args env = some
        { stdout := day_part ++ ['.'] ++ fmt_d ((env.localtime time_sec).tm_year + 1900) ++ ['\n'],
          code := 0 } := by
  obtain ⟨r, hr, -, -⟩ := to_scope_cal _ hday.1 hday.2 g.scope
  refine ⟨r, hr, ?_⟩
  rw [main_of_time args env g time_sec hparse htime]
  exact print_date_standard g _ r hr hstd hyear.1 hyear.2

/-- Witness of C7: the examples of the header comment and of the specification. -/
theorem main_standard_notation_witness :
    main [] (env_at 25 0) = some ⟨"0.1925\n".toList, 0⟩ ∧
    main [] (env_at 125 31) = some ⟨"43.2025\n".toList, 0⟩ ∧
    base_7_str 5 = "5".toList ∧
    main ["--week".toList] (env_at 116 5) = some ⟨"0-.2016\n".toList, 0⟩ ∧
    ∃ day_part, to_scope (base_7_str ((env_at 116 5).localtime 0).tm_yday)
        Scope.scope_week = some day_part ∧
      main ["--week".toList] (env_at 116 5) = some
        { stdout := day_part ++ ['.'] ++ fmt_d (((env_at 116 5).localtime 0).tm_year + 1900)
            ++ ['\n'],
          code := 0 } :=
  ⟨by decide, by decide, by decide, by decide,
    main_standard_notation ["--week".toList] (env_at 116 5) ⟨.scope_week, 0, none⟩ 0
      rfl rfl (by decide) (by decide) (by decide)⟩

/-- C8: when the digital flag is set and the day of the year is in 0..366, the
program prints the year `tm_year + 1900` in decimal, then '-', then
`zero_pad (to_scope (base_7_str d) scope)`, which has exactly 4 characters,
and ends the line; it exits with code 0. -/
theorem main_digital_notation (args : List CStr) (env : Env) (g : Globals) (time_sec : Int)
    (hparse : parse_args args Globals.init = .ok g)
    (htime : read_time g env = .ok time_sec)
    (hdig : g.do_use_digital_form ≠ 0)
    (hday : 0 ≤ (env.localtime time_sec).tm_yday ∧ (env.localtime time_sec).tm_yday ≤ 366)
    (hyear : INT_MIN ≤ (env.localtime time_sec).tm_year + 1900 ∧
      (env.localtime time_sec).tm_year + 1900 ≤ INT_MAX) :
    ∃ day_part padded,
      to_scope (base_7_str (env.localtime time_sec).tm_yday) g.scope = some day_part ∧
      zero_pad day_part = some padded ∧ padded.length = 4 ∧
      main args env = some
        { stdout := fmt_d ((env.localtime time_sec).tm_year + 1900) ++ ['-'] ++ padded ++ ['\n'],
          code := 0 } := by
  obtain ⟨r, hr, -, hr4⟩ := to_scope_cal _ hday.1 hday.2 g.scope
  obtain ⟨p, hp, hp4⟩ := zero_pad_some r hr4
  refine ⟨r, p, hr, hp, hp4, ?_⟩
  rw [main_of_time args env g time_sec hparse htime]
  exact print_date_digital g _ r p hr hp hdig hyear.1 hyear.2

/-- Witness of C8: day 49 of 2016 under `--7month` has the scoped string "1--"
and is printed as "2016-01--". -/
theorem main_digital_notation_witness :
    to_scope (base_7_str 49) .scope_7month = some "1--".toList ∧
    main ["-d".toList, "--7month".toList] (env_at 116 49) = some ⟨"2016-01--\n".toList, 0⟩ ∧
    ∃ day_part padded,
      to_scope (base_7_str ((env_at 116 49).localtime 0).tm_yday) Scope.scope_7month
        = some day_part ∧
      zero_pad day_part = some padded ∧ padded.length = 4 ∧
      main ["-d".toList, "--7month".toList] (env_at 116 49) = some
        { stdout := fmt_d (((env_at 116 49).localtime 0).tm_year + 1900) ++ ['-'] ++ padded
            ++ ['\n'],
          code := 0 } :=
  ⟨by decide, by decide,
    main_digital_notation ["-d".toList, "--7month".toList] (env_at 116 49)
      ⟨.scope_7month, 1, none⟩ 0 rfl rfl (by decide) (by decide) (by decide)⟩

/-! ## The argument loop -/

theorem parse_args_flag (arg : CStr) (rest : List CStr) (g : Globals) (h : is_flag arg = true) :
    ∃ g1, parse_args (arg :: rest) g = parse_args rest g1 ∧ g1.filepath = g.filepath := by
  simp only [is_flag, Bool.or_eq_true, decide_eq_true_eq] at h
  rw [parse_args]
  by_cases h1 : arg = "--week".toList
  · exact ⟨{ g with scope := .scope_week }, by rw [if_pos h1], rfl⟩
  · by_cases h2 : arg = "--7month".toList
    · exact ⟨{ g with scope := .scope_7month }, by rw [if_neg h1, if_pos h2], rfl⟩
    · have h3 : arg = "-d".toList := by tauto
      exact ⟨{ g with do_use_digital_form := 1 }, by rw [if_neg h1, if_neg h2, if_pos h3], rfl⟩

theorem parse_args_non_flag (arg : CStr) (rest : List CStr) (g : Globals)
    (h : is_flag arg = false) :
    parse_args (arg :: rest) g =
      match g.filepath with
      | some _ => .error arg
      | none => parse_args rest { g with filepath := some arg } := by
  simp only [is_flag, Bool.or_eq_false_iff, decide_eq_false_iff_not] at h
  rw [parse_args, if_neg h.1.1, if_neg h.1.2, if_neg h.2]

theorem non_flags_cons_flag (arg : CStr) (rest : List CStr) (h : is_flag arg = true) :
    non_flags (arg :: rest) = non_flags rest := by
  simp [non_flags, h]

theorem non_flags_cons_non_flag (arg : CStr) (rest : List CStr) (h : is_flag arg = false) :
    non_flags (arg :: rest) = arg :: non_flags rest := by
  simp [non_flags, h]

/-- The argument loop once a file path is set: the first argument that is not
an option is reported. -/
theorem parse_args_with_path (args : List CStr) : ∀ (g : Globals) (p : CStr),
    g.filepath = some p →
    (∀ tok tl, non_flags args = tok :: tl → parse_args args g = .error tok) ∧
    (non_flags args = [] → ∃ g1, parse_args args g = .ok g1) := by
  induction args with
  | nil =>
    intro g p _
    exact ⟨fun tok tl h => by simp [non_flags] at h, fun _ => ⟨g, rfl⟩⟩
  | cons arg rest ih =>
    intro g p hp
    cases hf : is_flag arg with
    | true =>
      obtain ⟨g1, hg1, hfp⟩ := parse_args_flag arg rest g hf
      rw [hg1, non_flags_cons_flag arg rest hf]
      exact ih g1 p (by rw [hfp, hp])
    | false =>
      rw [parse_args_non_flag arg rest g hf, non_flags_cons_non_flag arg rest hf, hp]
      refine ⟨fun tok tl h => ?_, fun h => by simp at h⟩
      simp only [List.cons.injEq] at h
      rw [h.1]

/-- The argument loop while no file path is set: the second argument that is
not an option is reported. -/
theorem parse_args_without_path (args : List CStr) : ∀ (g : Globals),
    g.filepath = none →
    (∀ t1 tok tl, non_flags args = t1 :: tok :: tl → parse_args args g = .error tok) ∧
    ((non_flags args).length ≤ 1 → ∃ g1, parse_args args g = .ok g1) := by
  induction args with
  | nil =>
    intro g _
    exact ⟨fun t1 tok tl h => by simp [non_flags] at h, fun _ => ⟨g, rfl⟩⟩
  | cons arg rest ih =>
    intro g hp
    cases hf : is_flag arg with
    | true =>
      obtain ⟨g1, hg1, hfp⟩ := parse_args_flag arg rest g hf
      rw [hg1, non_flags_cons_flag arg rest hf]
      exact ih g1 (by rw [hfp, hp])
    | false =>
      rw [parse_args_non_flag arg rest g hf, non_flags_cons_non_flag arg rest hf, hp]
      have hw := parse_args_with_path rest { g with filepath := some arg } arg rfl
      refine ⟨fun t1 tok tl h => ?_, fun h => ?_⟩
      · simp only [List.cons.injEq] at h
        exact hw.1 tok tl h.2
      · apply hw.2
        simp only [List.length_cons] at h
        exact List.length_eq_zero.mp (by omega)

theorem print_date_code (g : Globals) (t : Tm) (r : Result) (h : print_date g t = some r) :
    r.code = 0 := by
  unfold print_date at h
  split at h
  · simp at h
  · split at h
    · split at h
      · simp at h
      · simp only [Option.some.injEq] at h
        rw [← h]
    · simp only [Option.some.injEq] at h
      rw [← h]

/-- A run whose arguments are accepted does not end with exit code 2. -/
theorem main_code_of_ok (args : List CStr) (env : Env) (g : Globals)
    (hparse : parse_args args Globals.init = .ok g) :
    (main args env).map (fun r => r.code) ≠ some 2 := by
  unfold main
  rw [hparse]
  simp only
  split
  · simp
  · intro h
    simp only [Option.map_eq_some'] at h
    obtain ⟨r, hr, hc⟩ := h
    rw [print_date_code _ _ r hr] at hc
    simp at hc

/-- C10: the program ends with exit code 2 exactly when at least two of its
arguments are none of `--week`, `--7month`, `-d`; it has then printed the line
`!Unrecognized argument: '<token>'` for the second such argument, followed by
the usage text, and nothing else. -/
theorem main_argument_error (args : List CStr) (env : Env) :
    ((main args env).map (fun r => r.code) = some 2 ↔ 2 ≤ (non_flags args).length) ∧
    (∀ tok, (non_flags args)[1]? = some tok →
      main args env = some
        { stdout := "!Unrecognized argument: '".toList ++ tok ++ "'\n".toList ++ usage_text,
          code := 2 }) := by
  have hB := parse_args_without_path args Globals.init rfl
  have herr : ∀ tok, (non_flags args)[1]? = some tok →
      main args env = some
        { stdout := "!Unrecognized argument: '".toList ++ tok ++ "'\n".toList ++ usage_text,
          code := 2 } := by
    intro tok htok
    match hnf : non_flags args, htok with
    | [], h => simp at h
    | [_], h => simp at h
    | t1 :: t2 :: tl, h =>
      simp only [List.getElem?_cons_succ, List.getElem?_cons_zero, Option.some.injEq] at h
      subst h
      unfold main
      rw [hB.1 t1 t2 tl hnf]
  refine ⟨⟨fun h => ?_, fun h => ?_⟩, herr⟩
  · by_contra hlen
    obtain ⟨g1, hg1⟩ := hB.2 (by omega)
    exact main_code_of_ok args env g1 hg1 h
  · match hnf : non_flags args, h with
    | [], h => simp at h
    | [_], h => simp at h
    | t1 :: t2 :: tl, _ =>
      rw [herr t2 (by rw [hnf]; simp)]
      rfl

/-- Witness of C10: with two file names the second one is reported; with one
file name and all options the arguments are accepted. -/
theorem main_argument_error_witness :
    main ["a".toList, "--week".toList, "b".toList, "c".toList] (env_at 116 5) = some
      { stdout := "!Unrecognized argument: 'b'\n".toList ++ usage_text, code := 2 } ∧
    non_flags ["a".toList, "--week".toList, "b".toList, "c".toList]
      = ["a".toList, "b".toList, "c".toList] ∧
    (main ["-d".toList, "a".toList, "--week".toList, "--7month".toList] (env_at 116 5)).map
      (fun r => r.code) = some 1 ∧
    ((main ["a".toList, "--week".toList, "b".toList, "c".toList] (env_at 116 5)).map
      (fun r => r.code) = some 2 ↔
      2 ≤ (non_flags ["a".toList, "--week".toList, "b".toList, "c".toList]).length) :=
  ⟨by rfl, by decide, by decide,
    (main_argument_error ["a".toList, "--week".toList, "b".toList, "c".toList]
      (env_at 116 5)).1⟩

/-! ## The order of the digital notation -/

theorem digitChar_toNat (k : Nat) (h : k < 10) : (Nat.digitChar k).toNat = 48 + k := by
  interval_cases k <;> rfl

theorem toDigits_year (y : Nat) (h0 : 1000 ≤ y) (h1 : y ≤ 9999) :
    Nat.toDigits 10 y = digital_year y := by
  obtain ⟨f, hf⟩ : ∃ f, y + 1 = f + 4 := ⟨y - 3, by omega⟩
  unfold Nat.toDigits digital_year
  rw [hf]
  simp only [Nat.toDigitsCore]
  have e1 : ¬ (y / 10 = 0) := by omega
  have e2 : ¬ (y / 10 / 10 = 0) := by omega
  have e3 : ¬ (y / 10 / 10 / 10 = 0) := by omega
  have e4 : y / 10 / 10 / 10 / 10 = 0 := by omega
  rw [if_neg e1, if_neg e2, if_neg e3, if_pos e4]
  have a1 : y / 10 / 10 / 10 % 10 = y / 1000 := by omega
  have a2 : y / 10 / 10 % 10 = y / 100 % 10 := by omega
  rw [a1, a2]

theorem digital_day_eq_nat : ∀ d : Nat, d < 367 →
    (to_scope (base_7_str (d : Int)) .scope_day).bind zero_pad
      = some (digital_day .scope_day d) ∧
    (to_scope (base_7_str (d : Int)) .scope_week).bind zero_pad
      = some (digital_day .scope_week d) ∧
    (to_scope (base_7_str (d : Int)) .scope_7month).bind zero_pad
      = some (digital_day .scope_7month d) := by
  decide!

theorem digital_day_eq (d : Int) (h0 : 0 ≤ d) (h1 : d ≤ 366) (scope : Scope) :
    (to_scope (base_7_str d) scope).bind zero_pad = some (digital_day scope d.toNat) := by
  have h := digital_day_eq_nat d.toNat (by omega)
  rw [Int.toNat_of_nonneg h0] at h
  cases scope
  · exact h.1
  · exact h.2.1
  · exact h.2.2

/-- The line printed in digital notation for a year in 1000..9999 and a day in
0..366. -/
theorem print_date_digital_line (g : Globals) (y d : Int) (hdig : g.do_use_digital_form ≠ 0)
    (hy0 : 1000 ≤ y) (hy1 : y ≤ 9999) (hd0 : 0 ≤ d) (hd1 : d ≤ 366) :
    print_date g ⟨y - 1900, d⟩ = some
      ⟨digital_year y.toNat ++ ['-'] ++ digital_day g.scope d.toNat ++ ['\n'], 0⟩ := by
  obtain ⟨r, hr, -, hr4⟩ := to_scope_cal d hd0 hd1 g.scope
  obtain ⟨p, hp, -⟩ := zero_pad_some r hr4
  have hkey := digital_day_eq d hd0 hd1 g.scope
  rw [hr, Option.some_bind, hp, Option.some.injEq] at hkey
  have hyear : (y - 1900 + 1900 : Int) = y := by omega
  have h := print_date_digital g ⟨y - 1900, d⟩ r p hr hp hdig
    (by unfold INT_MIN; simp only; omega) (by unfold INT_MAX; simp only; omega)
  rw [h]
  simp only [hyear, hkey]
  have hfmt : fmt_d y = digital_year y.toNat := by
    unfold fmt_d
    rw [if_neg (by omega)]
    exact toDigits_year y.toNat (by omega) (by omega)
  rw [hfmt]

theorem year_digits (y : Nat) (h : y ≤ 9999) :
    ∃ a b c e, a < 10 ∧ b < 10 ∧ c < 10 ∧ e < 10 ∧ y = 1000 * a + 100 * b + 10 * c + e ∧
      digital_year y = [Nat.digitChar a, Nat.digitChar b, Nat.digitChar c, Nat.digitChar e] :=
  ⟨y / 1000, y / 100 % 10, y / 10 % 10, y % 10, by omega, by omega, by omega, by omega,
    by omega, rfl⟩

theorem day_digits (d : Nat) (h : d ≤ 366) :
    ∃ a b c e, a < 7 ∧ b < 7 ∧ c < 7 ∧ e < 7 ∧ d = 343 * a + 49 * b + 7 * c + e ∧
      digital_day .scope_day d
        = [Nat.digitChar a, Nat.digitChar b, Nat.digitChar c, Nat.digitChar e] ∧
      digital_day .scope_week d = [Nat.digitChar a, Nat.digitChar b, Nat.digitChar c, '-'] ∧
      digital_day .scope_7month d = [Nat.digitChar a, Nat.digitChar b, '-', '-'] :=
  ⟨d / 343, d / 49 % 7, d / 7 % 7, d % 7, by omega, by omega, by omega, by omega,
    by omega, rfl, rfl, rfl⟩

theorem str_lt_append (a : CStr) : ∀ (b s t : CStr), a.length = b.length →
    str_lt a b = true → str_lt (a ++ s) (b ++ t) = true := by
  induction a with
  | nil =>
    intro b s t hlen h
    have hb : b = [] := List.length_eq_zero.mp hlen.symm
    subst hb
    simp [str_lt] at h
  | cons x a ih =>
    intro b s t hlen h
    match b, hlen, h with
    | [], hlen, _ => simp at hlen
    | y :: b, hlen, h =>
      simp only [List.cons_append, str_lt, Bool.or_eq_true, Bool.and_eq_true,
        decide_eq_true_eq, beq_iff_eq] at h ⊢
      rcases h with h | ⟨h1, h2⟩
      · exact Or.inl h
      · exact Or.inr ⟨h1, ih b s t (by simpa using hlen) h2⟩

theorem str_le_of_lt (a : CStr) : ∀ b : CStr, str_lt a b = true → str_le a b = true := by
  induction a with
  | nil => intro b _; simp [str_le]
  | cons x a ih =>
    intro b h
    match b, h with
    | [], h => simp [str_lt] at h
    | y :: b, h =>
      simp only [str_lt, str_le, Bool.or_eq_true, Bool.and_eq_true,
        decide_eq_true_eq, beq_iff_eq] at h ⊢
      rcases h with h | ⟨h1, h2⟩
      · exact Or.inl h
      · exact Or.inr ⟨h1, ih b h2⟩

theorem str_le_append_left (p s t : CStr) : str_le (p ++ s) (p ++ t) = str_le s t := by
  induction p with
  | nil => rfl
  | cons x p ih => simp [str_le, ih]

theorem str_lt_append_left (p s t : CStr) : str_lt (p ++ s) (p ++ t) = str_lt s t := by
  induction p with
  | nil => rfl
  | cons x p ih => simp [str_lt, ih]

theorem digital_year_lt (y1 y2 : Nat) (hy1 : y1 ≤ 9999) (hy2 : y2 ≤ 9999) (h : y1 < y2) :
    str_lt (digital_year y1) (digital_year y2) = true := by
  obtain ⟨a1, b1, c1, e1, ha1, hb1, hc1, he1, hy1eq, hk1⟩ := year_digits y1 hy1
  obtain ⟨a2, b2, c2, e2, ha2, hb2, hc2, he2, hy2eq, hk2⟩ := year_digits y2 hy2
  rw [hk1, hk2]
  simp only [str_lt, digitChar_toNat a1 (by omega), digitChar_toNat b1 (by omega),
    digitChar_toNat c1 (by omega), digitChar_toNat e1 (by omega),
    digitChar_toNat a2 (by omega), digitChar_toNat b2 (by omega),
    digitChar_toNat c2 (by omega), digitChar_toNat e2 (by omega),
    Bool.or_eq_true, Bool.and_eq_true, decide_eq_true_eq, beq_iff_eq, Bool.or_false,
    Bool.and_false, or_false, and_false]
  omega

theorem digital_day_le (scope : Scope) (d1 d2 : Nat) (hd1 : d1 ≤ 366) (hd2 : d2 ≤ 366)
    (h : d1 ≤ d2) :
    str_le (digital_day scope d1 ++ ['\n']) (digital_day scope d2 ++ ['\n']) = true := by
  obtain ⟨p1, q1, r1, s1, hp1, hq1, hr1, hs1, hd1eq, hD1, hW1, hM1⟩ := day_digits d1 hd1
  obtain ⟨p2, q2, r2, s2, hp2, hq2, hr2, hs2, hd2eq, hD2, hW2, hM2⟩ := day_digits d2 hd2
  cases scope
  · rw [hD1, hD2]
    simp only [List.cons_append, List.nil_append, str_le,
      digitChar_toNat p1 (by omega), digitChar_toNat q1 (by omega),
      digitChar_toNat r1 (by omega), digitChar_toNat s1 (by omega),
      digitChar_toNat p2 (by omega), digitChar_toNat q2 (by omega),
      digitChar_toNat r2 (by omega), digitChar_toNat s2 (by omega),
      Bool.or_eq_true, Bool.and_eq_true, decide_eq_true_eq, beq_iff_eq, beq_self_eq_true,
      lt_self_iff_false, false_or, true_and, and_true, or_true, and_false, or_false]
    omega
  · rw [hW1, hW2]
    simp only [List.cons_append, List.nil_append, str_le,
      digitChar_toNat p1 (by omega), digitChar_toNat q1 (by omega),
      digitChar_toNat r1 (by omega),
      digitChar_toNat p2 (by omega), digitChar_toNat q2 (by omega),
      digitChar_toNat r2 (by omega),
      Bool.or_eq_true, Bool.and_eq_true, decide_eq_true_eq, beq_iff_eq, beq_self_eq_true,
      lt_self_iff_false, false_or, true_and, and_true, or_true, and_false, or_false]
    omega
  · rw [hM1, hM2]
    simp only [List.cons_append, List.nil_append, str_le,
      digitChar_toNat p1 (by omega), digitChar_toNat q1 (by omega),
      digitChar_toNat p2 (by omega), digitChar_toNat q2 (by omega),
      Bool.or_eq_true, Bool.and_eq_true, decide_eq_true_eq, beq_iff_eq, beq_self_eq_true,
      lt_self_iff_false, false_or, true_and, and_true, or_true, and_false, or_false]
    omega

theorem digital_day_lt (d1 d2 : Nat) (hd1 : d1 ≤ 366) (hd2 : d2 ≤ 366) (h : d1 < d2) :
    str_lt (digital_day .scope_day d1 ++ ['\n']) (digital_day .scope_day d2 ++ ['\n'])
      = true := by
  obtain ⟨p1, q1, r1, s1, hp1, hq1, hr1, hs1, hd1eq, hD1, -, -⟩ := day_digits d1 hd1
  obtain ⟨p2, q2, r2, s2, hp2, hq2, hr2, hs2, hd2eq, hD2, -, -⟩ := day_digits d2 hd2
  rw [hD1, hD2]
  simp only [List.cons_append, List.nil_append, str_lt,
    digitChar_toNat p1 (by omega), digitChar_toNat q1 (by omega),
    digitChar_toNat r1 (by omega), digitChar_toNat s1 (by omega),
    digitChar_toNat p2 (by omega), digitChar_toNat q2 (by omega),
    digitChar_toNat r2 (by omega), digitChar_toNat s2 (by omega),
    Bool.or_eq_true, Bool.and_eq_true, decide_eq_true_eq, beq_iff_eq, beq_self_eq_true,
    lt_self_iff_false, false_or, true_and, and_true, or_true, and_false, or_false,
    Bool.or_false, Bool.and_false]
  omega

/-- The digital lines of two dates in chronological order are in byte-wise
order, strictly so under `scope_day` for distinct dates. -/
theorem digital_key_le (scope : Scope) (y1 d1 y2 d2 : Nat)
    (hy1 : y1 ≤ 9999) (hy2 : y2 ≤ 9999) (hd1 : d1 ≤ 366) (hd2 : d2 ≤ 366)
    (hle : y1 < y2 ∨ (y1 = y2 ∧ d1 ≤ d2)) :
    str_le (digital_year y1 ++ ['-'] ++ digital_day scope d1 ++ ['\n'])
      (digital_year y2 ++ ['-'] ++ digital_day scope d2 ++ ['\n']) = true ∧
    (scope = .scope_day → (y1 < y2 ∨ (y1 = y2 ∧ d1 < d2)) →
      str_lt (digital_year y1 ++ ['-'] ++ digital_day scope d1 ++ ['\n'])
        (digital_year y2 ++ ['-'] ++ digital_day scope d2 ++ ['\n']) = true) := by
  simp only [List.append_assoc]
  have hyear : y1 < y2 →
      str_lt (digital_year y1 ++ (['-'] ++ (digital_day scope d1 ++ ['\n'])))
        (digital_year y2 ++ (['-'] ++ (digital_day scope d2 ++ ['\n']))) = true :=
    fun h => str_lt_append _ _ _ _ rfl (digital_year_lt y1 y2 hy1 hy2 h)
  constructor
  · rcases hle with h | ⟨h1, h2⟩
    · exact str_le_of_lt _ _ (hyear h)
    · subst h1
      rw [str_le_append_left, str_le_append_left]
      exact digital_day_le scope d1 d2 hd1 hd2 h2
  · intro hs hlt
    rcases hlt with h | ⟨h1, h2⟩
    · exact hyear h
    · subst h1 hs
      rw [str_lt_append_left, str_lt_append_left]
      exact digital_day_lt d1 d2 hd1 hd2 h2

theorem str_lt_irrefl (s : CStr) : str_lt s s = false := by
  induction s with
  | nil => rfl
  | cons x s ih => simp [str_lt, ih]

/-- C9: in digital notation, for a fixed scope, years in 1000..9999 and days of
the year in 0..366, the lines printed for two dates in chronological order are
in byte-wise order; under `scope_day` a strictly earlier date gives a strictly
smaller line, so that distinct dates give distinct lines. -/
theorem digital_sort_friendly (g : Globals) (y1 d1 y2 d2 : Int)
    (hdig : g.do_use_digital_form ≠ 0)
    (hy1 : 1000 ≤ y1 ∧ y1 ≤ 9999) (hy2 : 1000 ≤ y2 ∧ y2 ≤ 9999)
    (hd1 : 0 ≤ d1 ∧ d1 ≤ 366) (hd2 : 0 ≤ d2 ∧ d2 ≤ 366)
    (hle : y1 < y2 ∨ (y1 = y2 ∧ d1 ≤ d2)) :
    ∃ r1 r2, print_date g ⟨y1 - 1900, d1⟩ = some r1 ∧
      print_date g ⟨y2 - 1900, d2⟩ = some r2 ∧
      str_le r1.stdout r2.stdout = true ∧
      (g.scope = .scope_day → (y1 < y2 ∨ (y1 = y2 ∧ d1 < d2)) →
        str_lt r1.stdout r2.stdout = true ∧ r1.stdout ≠ r2.stdout) := by
  refine ⟨_, _, print_date_digital_line g y1 d1 hdig hy1.1 hy1.2 hd1.1 hd1.2,
    print_date_digital_line g y2 d2 hdig hy2.1 hy2.2 hd2.1 hd2.2, ?_, ?_⟩
  · exact (digital_key_le g.scope y1.toNat d1.toNat y2.toNat d2.toNat (by omega) (by omega)
      (by omega) (by omega) (by omega)).1
  · intro hs hlt
    have h := (digital_key_le g.scope y1.toNat d1.toNat y2.toNat d2.toNat (by omega) (by omega)
      (by omega) (by omega) (by omega)).2 hs (by omega)
    refine ⟨h, fun heq => ?_⟩
    simp only at h heq
    rw [heq, str_lt_irrefl] at h
    exact Bool.false_ne_true h

/-- Witness of C9: days 6 and 7 of 2016, whose encodings "6" and "10" are in
the wrong order before padding, and the last day of 2016 against the first
of 2017. -/
theorem digital_sort_friendly_witness :
    print_date ⟨.scope_day, 1, none⟩ ⟨2016 - 1900, 6⟩ = some ⟨"2016-0006\n".toList, 0⟩ ∧
    print_date ⟨.scope_day, 1, none⟩ ⟨2016 - 1900, 7⟩ = some ⟨"2016-0010\n".toList, 0⟩ ∧
    str_lt "2016-0006\n".toList "2016-0010\n".toList = true ∧
    str_lt "2016-1031\n".toList "2017-0000\n".toList = true ∧
    ∃ r1 r2, print_date ⟨.scope_day, 1, none⟩ ⟨2016 - 1900, 6⟩ = some r1 ∧
      print_date ⟨.scope_day, 1, none⟩ ⟨2016 - 1900, 7⟩ = some r2 ∧
      str_le r1.stdout r2.stdout = true ∧
      str_lt r1.stdout r2.stdout = true ∧ r1.stdout ≠ r2.stdout := by
  obtain ⟨r1, r2, h1, h2, h3, h4⟩ :=
    digital_sort_friendly ⟨.scope_day, 1, none⟩ 2016 6 2016 7 (by decide) (by decide)
      (by decide) (by decide) (by decide) (by decide)
  exact ⟨by decide, by decide, by decide, by decide,
    r1, r2, h1, h2, h3, h4 rfl (Or.inr ⟨rfl, by decide⟩)⟩

/-! ## The parsed configuration -/

theorem last_scope_cons_week (rest : List CStr) (s : Scope) :
    last_scope ("--week".toList :: rest) s = last_scope rest .scope_week := by
  unfold last_scope scope_flags
  rw [List.filter_cons_of_pos (by decide), List.getLast?_cons]
  cases (List.filter (fun arg => decide (arg = "--week".toList) || decide (arg = "--7month".toList))
    rest).getLast? <;> simp

theorem last_scope_cons_7month (rest : List CStr) (s : Scope) :
    last_scope ("--7month".toList :: rest) s = last_scope rest .scope_7month := by
  unfold last_scope scope_flags
  rw [List.filter_cons_of_pos (by decide), List.getLast?_cons]
  cases (List.filter (fun arg => decide (arg = "--week".toList) || decide (arg = "--7month".toList))
    rest).getLast? <;> simp

theorem last_scope_cons_other (arg : CStr) (rest : List CStr) (s : Scope)
    (h1 : arg ≠ "--week".toList) (h2 : arg ≠ "--7month".toList) :
    last_scope (arg :: rest) s = last_scope rest s := by
  unfold last_scope scope_flags
  rw [List.filter_cons_of_neg (by simp only [Bool.or_eq_true, decide_eq_true_eq]; tauto)]

/-- The globals after an argument loop that ends without error. -/
theorem parse_args_ok_fields (args : List CStr) : ∀ (g g1 : Globals),
    parse_args args g = .ok g1 →
    g1.scope = last_scope args g.scope ∧
    g1.do_use_digital_form = (if "-d".toList ∈ args then 1 else g.do_use_digital_form) ∧
    g1.filepath = (match g.filepath with
      | some p => some p
      | none => (non_flags args).head?) := by
  induction args with
  | nil =>
    intro g g1 h
    simp only [parse_args, Except.ok.injEq] at h
    subst h
    refine ⟨rfl, by simp, ?_⟩
    cases g.filepath <;> rfl
  | cons arg rest ih =>
    intro g g1 h
    rw [parse_args] at h
    by_cases h1 : arg = "--week".toList
    · rw [if_pos h1] at h
      obtain ⟨hs, hd, hf⟩ := ih _ _ h
      subst h1
      rw [last_scope_cons_week, non_flags_cons_flag _ _ (by decide)]
      refine ⟨hs, ?_, hf⟩
      rw [hd]
      simp only [List.mem_cons]
      have : "-d".toList ≠ "--week".toList := by decide
      simp [this]
    · rw [if_neg h1] at h
      by_cases h2 : arg = "--7month".toList
      · rw [if_pos h2] at h
        obtain ⟨hs, hd, hf⟩ := ih _ _ h
        subst h2
        rw [last_scope_cons_7month, non_flags_cons_flag _ _ (by decide)]
        refine ⟨hs, ?_, hf⟩
        rw [hd]
        have : "-d".toList ≠ "--7month".toList := by decide
        simp [this]
      · rw [if_neg h2] at h
        rw [last_scope_cons_other arg rest _ h1 h2]
        by_cases h3 : arg = "-d".toList
        · rw [if_pos h3] at h
          obtain ⟨hs, hd, hf⟩ := ih _ _ h
          subst h3
          rw [non_flags_cons_flag _ _ (by decide)]
          refine ⟨hs, ?_, hf⟩
          rw [hd]
          simp
        · rw [if_neg h3] at h
          have hnf : is_flag arg = false := by
            simp only [is_flag, Bool.or_eq_false_iff, decide_eq_false_iff_not]
            exact ⟨⟨h1, h2⟩, h3⟩
          rw [non_flags_cons_non_flag _ _ hnf]
          cases hp : g.filepath with
          | some p =>
            rw [hp] at h
            simp at h
          | none =>
            rw [hp] at h
            simp only at h
            obtain ⟨hs, hd, hf⟩ := ih _ _ h
            refine ⟨hs, ?_, ?_⟩
            · rw [hd]
              have : ¬ ("-d".toList = arg) := fun e => h3 e.symm
              simp only [List.mem_cons, this, false_or]
            · simpa using hf

theorem scope_flags_eq_nil (args : List CStr)
    (h1 : "--week".toList ∉ args) (h2 : "--7month".toList ∉ args) : scope_flags args = [] := by
  unfold scope_flags
  rw [List.filter_eq_nil_iff]
  intro a ha
  simp only [Bool.or_eq_true, decide_eq_true_eq, not_or]
  exact ⟨fun e => h1 (e ▸ ha), fun e => h2 (e ▸ ha)⟩

/-- C11: for every argument list with at most one argument that is not an
option, the argument loop ends without error; the scope is then `scope_week`
if the last scope option of the list is `--week`, `scope_7month` if it is
`--7month`, and `scope_day` if neither occurs; the digital flag is set exactly
when `-d` occurs; and the file path is the argument that is not an option if
there is one, and is unset otherwise. -/
theorem parse_args_configuration (args : List CStr) (h : (non_flags args).length ≤ 1) :
    ∃ g, parse_args args Globals.init = .ok g ∧
      ((scope_flags args).getLast? = some "--week".toList → g.scope = .scope_week) ∧
      ((scope_flags args).getLast? = some "--7month".toList → g.scope = .scope_7month) ∧
      ("--week".toList ∉ args ∧ "--7month".toList ∉ args → g.scope = .scope_day) ∧
      (g.do_use_digital_form ≠ 0 ↔ "-d".toList ∈ args) ∧
      (∀ path, non_flags args = [path] → g.filepath = some path) ∧
      (non_flags args = [] → g.filepath = none) := by
  obtain ⟨g, hg⟩ := (parse_args_without_path args Globals.init rfl).2 h
  obtain ⟨hs, hd, hf⟩ := parse_args_ok_fields args _ _ hg
  refine ⟨g, hg, ?_, ?_, ?_, ?_, ?_, ?_⟩
  · intro hl
    rw [hs, last_scope, hl]
    rfl
  · intro hl
    rw [hs, last_scope, hl]
    rfl
  · intro hn
    rw [hs, last_scope, scope_flags_eq_nil args hn.1 hn.2]
    rfl
  · rw [hd]
    by_cases hm : "-d".toList ∈ args
    · simp only [hm, if_true, iff_true]
      decide
    · simp only [hm, if_false, iff_false]
      exact fun hne => hne rfl
  · intro path hp
    rw [hf, hp]
    rfl
  · intro hp
    rw [hf, hp]
    rfl

/-- Witness of C11: both scope options, `-d` and a file name. -/
theorem parse_args_configuration_witness :
    (non_flags ["--week".toList, "a.txt".toList, "-d".toList, "--7month".toList]).length ≤ 1 ∧
    parse_args ["--week".toList, "a.txt".toList, "-d".toList, "--7month".toList] Globals.init
      = .ok ⟨.scope_7month, 1, some "a.txt".toList⟩ ∧
    parse_args ["--7month".toList, "--week".toList] Globals.init = .ok ⟨.scope_week, 0, none⟩ ∧
    parse_args [] Globals.init = .ok ⟨.scope_day, 0, none⟩ ∧
    ∃ g, parse_args ["--week".toList, "a.txt".toList, "-d".toList, "--7month".toList]
        Globals.init = .ok g ∧
      g.scope = .scope_7month ∧ g.do_use_digital_form ≠ 0 ∧ g.filepath = some "a.txt".toList := by
  obtain ⟨g, hg, -, h7, -, hd, hp, -⟩ :=
    parse_args_configuration ["--week".toList, "a.txt".toList, "-d".toList, "--7month".toList]
      (by decide)
  exact ⟨by decide, rfl, rfl, rfl, g, hg, h7 (by decide), hd.mpr (by decide), hp _ (by decide)⟩

/-! ## Permutations of the arguments -/

theorem last_scope_nil (s : Scope) : last_scope [] s = s := rfl

/-- Without `--7month` in the list the scope depends only on whether `--week` occurs. -/
theorem last_scope_without_7month (args : List CStr) : ∀ s : Scope,
    "--7month".toList ∉ args →
    last_scope args s = if "--week".toList ∈ args then .scope_week else s := by
  induction args with
  | nil => intro s _; simp [last_scope_nil]
  | cons arg rest ih =>
    intro s hn
    have hrest : "--7month".toList ∉ rest := fun h => hn (List.mem_cons_of_mem _ h)
    have harg : arg ≠ "--7month".toList := fun e => hn (e ▸ List.mem_cons_self _ _)
    by_cases h1 : arg = "--week".toList
    · subst h1
      rw [last_scope_cons_week, ih _ hrest, if_pos (List.mem_cons_self _ _)]
      split <;> rfl
    · rw [last_scope_cons_other arg rest s h1 harg, ih s hrest]
      have : ("--week".toList ∈ arg :: rest) ↔ "--week".toList ∈ rest := by
        rw [List.mem_cons]
        exact ⟨fun h => h.resolve_left (fun e => h1 e.symm), Or.inr⟩
      simp only [this]

/-- Without `--week` in the list the scope depends only on whether `--7month` occurs. -/
theorem last_scope_without_week (args : List CStr) : ∀ s : Scope,
    "--week".toList ∉ args →
    last_scope args s = if "--7month".toList ∈ args then .scope_7month else s := by
  induction args with
  | nil => intro s _; simp [last_scope_nil]
  | cons arg rest ih =>
    intro s hn
    have hrest : "--week".toList ∉ rest := fun h => hn (List.mem_cons_of_mem _ h)
    have harg : arg ≠ "--week".toList := fun e => hn (e ▸ List.mem_cons_self _ _)
    by_cases h1 : arg = "--7month".toList
    · subst h1
      rw [last_scope_cons_7month, ih _ hrest, if_pos (List.mem_cons_self _ _)]
      split <;> rfl
    · rw [last_scope_cons_other arg rest s harg h1, ih s hrest]
      have : ("--7month".toList ∈ arg :: rest) ↔ "--7month".toList ∈ rest := by
        rw [List.mem_cons]
        exact ⟨fun h => h.resolve_left (fun e => h1 e.symm), Or.inr⟩
      simp only [this]

theorem last_scope_perm (args1 args2 : List CStr) (s : Scope) (hperm : args1.Perm args2)
    (hnb : ¬ ("--week".toList ∈ args1 ∧ "--7month".toList ∈ args1)) :
    last_scope args1 s = last_scope args2 s := by
  by_cases hw : "--week".toList ∈ args1
  · have h7 : "--7month".toList ∉ args1 := fun h => hnb ⟨hw, h⟩
    rw [last_scope_without_7month args1 s h7,
      last_scope_without_7month args2 s (fun h => h7 (hperm.mem_iff.mpr h))]
    simp only [hperm.mem_iff]
  · rw [last_scope_without_week args1 s hw,
      last_scope_without_week args2 s (fun h => hw (hperm.mem_iff.mpr h))]
    simp only [hperm.mem_iff]

theorem non_flags_perm (args1 args2 : List CStr) (hperm : args1.Perm args2)
    (h : (non_flags args1).length ≤ 1) : non_flags args1 = non_flags args2 := by
  have hp : (non_flags args1).Perm (non_flags args2) := hperm.filter _
  match hnf : non_flags args1, h with
  | [], _ =>
    rw [hnf] at hp
    exact (List.nil_perm.mp hp).symm
  | [a], _ =>
    rw [hnf] at hp
    exact List.singleton_perm.mp hp
  | _ :: _ :: _, h => simp at h

/-- C12: for every argument list with at most one argument that is not an
option and without both `--week` and `--7month`, every permutation of the
list is accepted with the same scope, digital flag and file path, and the
run of `main` is the same in every environment. -/
theorem parse_args_order_independent (args1 args2 : List CStr) (hperm : args1.Perm args2)
    (h : (non_flags args1).length ≤ 1)
    (hnb : ¬ ("--week".toList ∈ args1 ∧ "--7month".toList ∈ args1)) :
    (∃ g, parse_args args1 Globals.init = .ok g ∧ parse_args args2 Globals.init = .ok g) ∧
    ∀ env, main args1 env = main args2 env := by
  have hnf := non_flags_perm args1 args2 hperm h
  obtain ⟨g1, hg1⟩ := (parse_args_without_path args1 Globals.init rfl).2 h
  obtain ⟨g2, hg2⟩ := (parse_args_without_path args2 Globals.init rfl).2 (by rw [← hnf]; exact h)
  obtain ⟨hs1, hd1, hf1⟩ := parse_args_ok_fields args1 _ _ hg1
  obtain ⟨hs2, hd2, hf2⟩ := parse_args_ok_fields args2 _ _ hg2
  have heq : g1 = g2 := by
    cases g1
    cases g2
    simp only at hs1 hd1 hf1 hs2 hd2 hf2
    rw [hs1, hd1, hf1, hs2, hd2, hf2, last_scope_perm args1 args2 _ hperm hnb, hnf]
    simp only [hperm.mem_iff]
  subst heq
  refine ⟨⟨g1, hg1, hg2⟩, fun env => ?_⟩
  unfold main
  rw [hg1, hg2]

/-- Witness of C12: the options before and after the file name. -/
theorem parse_args_order_independent_witness :
    List.Perm ["-d".toList, "--week".toList, "a.txt".toList]
      ["a.txt".toList, "--week".toList, "-d".toList] ∧
    parse_args ["-d".toList, "--week".toList, "a.txt".toList] Globals.init
      = .ok ⟨.scope_week, 1, some "a.txt".toList⟩ ∧
    parse_args ["a.txt".toList, "--week".toList, "-d".toList] Globals.init
      = .ok ⟨.scope_week, 1, some "a.txt".toList⟩ ∧
    ∀ env, main ["-d".toList, "--week".toList, "a.txt".toList] env
      = main ["a.txt".toList, "--week".toList, "-d".toList] env :=
  ⟨by decide, rfl, rfl,
    (parse_args_order_independent ["-d".toList, "--week".toList, "a.txt".toList]
      ["a.txt".toList, "--week".toList, "-d".toList] (by decide) (by decide) (by decide)).2⟩

/-! ## The file error -/

theorem read_time_error_iff (g : Globals) (env : Env) (path : CStr) :
    read_time g env = .error path ↔ g.filepath = some path ∧ env.stat path = none := by
  unfold read_time
  cases hf : g.filepath with
  | none => simp
  | some p =>
    simp only
    cases hs : env.stat p with
    | none =>
      simp only [Except.error.injEq, Option.some.injEq]
      constructor
      · intro e; subst e; exact ⟨rfl, hs⟩
      · intro e; exact e.1
    | some m =>
      constructor
      · intro e; exact absurd e (by simp)
      · intro e
        simp only [Option.some.injEq] at e
        obtain ⟨e1, e2⟩ := e
        subst e1
        rw [hs] at e2
        exact absurd e2 (by simp)

/-- The exit code of a run whose arguments are accepted. -/
theorem main_of_ok (args : List CStr) (env : Env) (g : Globals)
    (hparse : parse_args args Globals.init = .ok g) :
    (∀ path, read_time g env = .error path →
      main args env = some
        { stdout := "!Error reading the file info for '".toList ++ path ++ "'\n".toList
            ++ usage_text,
          code := 1 }) ∧
    (∀ time_sec, read_time g env = .ok time_sec →
      (main args env).map (fun r => r.code) ≠ some 1) := by
  constructor
  · intro path h
    unfold main
    rw [hparse]
    simp only
    rw [h]
  · intro time_sec h hc
    rw [main_of_time args env g time_sec hparse h] at hc
    simp only [Option.map_eq_some'] at hc
    obtain ⟨r, hr, hcode⟩ := hc
    rw [print_date_code _ _ r hr] at hcode
    simp at hcode

/-- C13: the program ends with exit code 1 exactly when its arguments are
accepted, a file path was given and `stat` fails on that path; it has then
printed the line `!Error reading the file info for '<path>'` followed by the
usage text, and nothing else.  With two or more arguments that are not options
the exit code is 2 whatever `stat` answers, and without a file path the exit
code is never 1. -/
theorem main_file_error (args : List CStr) (env : Env) :
    ((main args env).map (fun r => r.code) = some 1 ↔
      ∃ g path, parse_args args Globals.init = .ok g ∧ g.filepath = some path ∧
        env.stat path = none) ∧
    (∀ g path, parse_args args Globals.init = .ok g → g.filepath = some path →
      env.stat path = none →
      main args env = some
        { stdout := "!Error reading the file info for '".toList ++ path ++ "'\n".toList
            ++ usage_text,
          code := 1 }) ∧
    (2 ≤ (non_flags args).length → (main args env).map (fun r => r.code) = some 2) ∧
    (non_flags args = [] → (main args env).map (fun r => r.code) ≠ some 1) := by
  have hB := parse_args_without_path args Globals.init rfl
  have hmsg : ∀ g path, parse_args args Globals.init = .ok g → g.filepath = some path →
      env.stat path = none →
      main args env = some
        { stdout := "!Error reading the file info for '".toList ++ path ++ "'\n".toList
            ++ usage_text,
          code := 1 } := fun g path hg hp hs =>
    (main_of_ok args env g hg).1 path ((read_time_error_iff g env path).mpr ⟨hp, hs⟩)
  refine ⟨⟨fun h => ?_, fun ⟨g, path, hg, hp, hs⟩ => by rw [hmsg g path hg hp hs]; rfl⟩,
    hmsg, fun h => ?_, fun h hc => ?_⟩
  · cases hg : parse_args args Globals.init with
    | error tok =>
      unfold main at h
      rw [hg] at h
      simp at h
    | ok g =>
      cases ht : read_time g env with
      | error path =>
        exact ⟨g, path, rfl, ((read_time_error_iff g env path).mp ht).1,
          ((read_time_error_iff g env path).mp ht).2⟩
      | ok time_sec => exact absurd h ((main_of_ok args env g hg).2 time_sec ht)
  · match hnf : non_flags args, h with
    | [], h => simp at h
    | [_], h => simp at h
    | t1 :: t2 :: tl, _ =>
      unfold main
      rw [hB.1 t1 t2 tl hnf]
      rfl
  · obtain ⟨g, hg⟩ := hB.2 (by rw [h]; simp)
    have hf := (parse_args_ok_fields args _ _ hg).2.2
    rw [h] at hf
    cases ht : read_time g env with
    | error path =>
      have := ((read_time_error_iff g env path).mp ht).1
      rw [hf] at this
      simp [Globals.init] at this
    | ok time_sec => exact (main_of_ok args env g hg).2 time_sec ht hc

/-- Witness of C13: a file that does not exist, alone and next to a second
file name. -/
theorem main_file_error_witness :
    main ["--week".toList, "a.txt".toList] (env_at 116 5) = some
      { stdout := "!Error reading the file info for 'a.txt'\n".toList ++ usage_text,
        code := 1 } ∧
    (main ["a.txt".toList, "b.txt".toList] (env_at 116 5)).map (fun r => r.code) = some 2 ∧
    (main ["--week".toList] (env_at 116 5)).map (fun r => r.code) = some 0 ∧
    (main ["--week".toList, "a.txt".toList] (env_at 116 5)).map (fun r => r.code) = some 1 :=
  ⟨by rfl, by decide, by decide,
    (main_file_error ["--week".toList, "a.txt".toList] (env_at 116 5)).1.mpr
      ⟨⟨.scope_week, 0, some "a.txt".toList⟩, "a.txt".toList, rfl, rfl, rfl⟩⟩

/-! ## The length of the encoding -/

theorem base_7_loop_zero (free : Nat) (acc : CStr) : (base_7_loop free 0 acc).2.2 = acc := by
  cases free <;> simp [base_7_loop]

/-- The loop writes `k + 1` digits for a number between `7 ^ k` and `7 ^ (k + 1)`. -/
theorem base_7_loop_length (k : Nat) : ∀ (free : Nat) (n : Int) (acc : CStr),
    k < free → 7 ^ k ≤ n → n < 7 ^ (k + 1) →
    (base_7_loop free n acc).2.2.length = acc.length + k + 1 := by
  induction k with
  | zero =>
    intro free n acc hf h0 h1
    obtain ⟨f, rfl⟩ : ∃ f, free = f + 1 := ⟨free - 1, by omega⟩
    simp only [pow_zero, zero_add, pow_one] at h0 h1
    rw [base_7_loop, if_pos (by omega)]
    have hq : Int.tdiv n 7 = 0 := by
      rw [(tmod_toNat_lt n (by omega)).2.2]; omega
    rw [hq, base_7_loop_zero]
    simp
  | succ k ih =>
    intro free n acc hf h0 h1
    obtain ⟨f, rfl⟩ : ∃ f, free = f + 1 := ⟨free - 1, by omega⟩
    have hpos : (0 : Int) < 7 ^ (k + 1) := by positivity
    rw [base_7_loop, if_pos (by omega), (tmod_toNat_lt n (by omega)).2.2]
    rw [ih f (n / 7) _ (by omega)]
    · simp only [List.length_cons]; omega
    · rw [pow_succ] at h0
      omega
    · rw [pow_succ] at h1
      omega

theorem base_7_str_length (n : Int) (k : Nat) (h1 : n ≤ INT_MAX)
    (hk0 : 7 ^ k ≤ n) (hk1 : n < 7 ^ (k + 1)) : (base_7_str n).length = k + 1 := by
  have hkpos : (0 : Int) < 7 ^ k := by positivity
  have hn : 0 < n := by omega
  have hne := (base_7_str_pos n hn h1).1
  have hk : k < BUF_SIZE - 1 := by
    have h : (7 : Int) ^ k < 7 ^ 62 := lt_of_le_of_lt hk0 (lt_of_le_of_lt h1 int_max_lt)
    have := (pow_lt_pow_iff_right₀ (by norm_num : (1 : Int) < 7)).mp h
    have hB : BUF_SIZE - 1 = 63 := by decide
    omega
  have hlen := base_7_loop_length k (BUF_SIZE - 1) n [] hk hk0 hk1
  unfold base_7_str
  rw [if_neg (by omega), if_neg (by omega)]
  simp only [hne, if_false]
  rw [hlen]
  simp

/-- The number of digits of a positive `int`, by the logarithm in base 7. -/
theorem base_7_str_length_log (n : Int) (h0 : 0 < n) (h1 : n ≤ INT_MAX) :
    (base_7_str n).length = Nat.log 7 n.toNat + 1 := by
  apply base_7_str_length n _ h1
  · have := Nat.pow_log_le_self 7 (x := n.toNat) (by omega)
    have h : ((7 ^ Nat.log 7 n.toNat : Nat) : Int) ≤ (n.toNat : Int) := by exact_mod_cast this
    rw [Int.toNat_of_nonneg (le_of_lt h0)] at h
    exact_mod_cast h
  · have := Nat.lt_pow_succ_log_self (by norm_num : 1 < 7) n.toNat
    have h : ((n.toNat : Nat) : Int) < ((7 ^ (Nat.log 7 n.toNat + 1) : Nat) : Int) := by
      exact_mod_cast this
    rw [Int.toNat_of_nonneg (le_of_lt h0)] at h
    exact_mod_cast h

/-- C15: for 32-bit `int`s 0 ≤ m ≤ n the encoding of m is not longer than the
encoding of n, and for n ≥ 1 the encoding of n has k + 1 characters exactly
when 7 ^ k ≤ n < 7 ^ (k + 1). -/
theorem base_7_str_length_powers (m n : Int) (k : Nat) (hm : 0 ≤ m) (hmn : m ≤ n)
    (hn : n ≤ INT_MAX) :
    (base_7_str m).length ≤ (base_7_str n).length ∧
    (1 ≤ n → ((base_7_str n).length = k + 1 ↔ 7 ^ k ≤ n ∧ n < 7 ^ (k + 1))) := by
  constructor
  · rcases eq_or_lt_of_le hm with h | h
    · subst h
      rcases eq_or_lt_of_le hmn with h | h
      · subst h; exact le_refl _
      · rw [base_7_str_length_log n h hn]
        have : (base_7_str 0).length = 1 := by decide
        omega
    · rw [base_7_str_length_log m h (by omega), base_7_str_length_log n (by omega) hn]
      have := Nat.log_mono_right (b := 7) (Int.toNat_le_toNat hmn)
      omega
  · intro h1
    constructor
    · intro hlen
      rw [base_7_str_length_log n (by omega) hn] at hlen
      have hk : Nat.log 7 n.toNat = k := by omega
      have a := Nat.pow_log_le_self 7 (x := n.toNat) (by omega)
      have b := Nat.lt_pow_succ_log_self (by norm_num : 1 < 7) n.toNat
      rw [hk] at a b
      have a1 : ((7 ^ k : Nat) : Int) ≤ (n.toNat : Int) := by exact_mod_cast a
      have b1 : ((n.toNat : Nat) : Int) < ((7 ^ (k + 1) : Nat) : Int) := by exact_mod_cast b
      rw [Int.toNat_of_nonneg (by omega)] at a1 b1
      exact ⟨by exact_mod_cast a1, by exact_mod_cast b1⟩
    · intro ⟨a, b⟩
      exact base_7_str_length n k hn a b

/-- Witness of C15: the lengths at the powers of 7 up to the end of the year. -/
theorem base_7_str_length_powers_witness :
    (base_7_str 6).length = 1 ∧ (base_7_str 7).length = 2 ∧ (base_7_str 48).length = 2 ∧
    (base_7_str 49).length = 3 ∧ (base_7_str 342).length = 3 ∧ (base_7_str 343).length = 4 ∧
    (base_7_str 366).length = 4 ∧
    (base_7_str 342).length ≤ (base_7_str 343).length ∧
    ((base_7_str 343).length = 3 + 1 ↔ (7 : Int) ^ 3 ≤ 343 ∧ (343 : Int) < 7 ^ (3 + 1)) := by
  obtain ⟨h1, h2⟩ := base_7_str_length_powers 342 343 3 (by decide) (by decide) (by decide)
  exact ⟨by decide, by decide, by decide, by decide, by decide, by decide, by decide,
    h1, h2 (by decide)⟩

/-! ## Strings of four characters and more -/

/-- C14 (amended): for every string s of exactly 4 characters, `zero_pad s`
is s. -/
theorem zero_pad_four (s : CStr) (h : s.length = 4) : zero_pad s = some s := by
  match s, h with
  | [a, b, c, d], _ => rfl

/-- Witness of C14 (amended): the example of the specification and the
encoding of the last day of a leap year. -/
theorem zero_pad_four_witness :
    "1234".toList.length = 4 ∧ zero_pad "1234".toList = some "1234".toList ∧
    zero_pad (base_7_str 366) = some (base_7_str 366) :=
  ⟨by decide, zero_pad_four "1234".toList (by decide), by decide⟩

/-- C14 as stated fails: for a string of five characters the pointer
`out_str + 4 - strlen(str)` lies before `out_str` and the copy does not fit the
5 bytes, so the call has no defined result. -/
theorem zero_pad_four_counterexample :
    4 ≤ "12345".toList.length ∧ zero_pad "12345".toList = none ∧
    ¬ (∀ s : CStr, 4 ≤ s.length → zero_pad s = some s) :=
  ⟨by decide, by decide, fun h => absurd (h "12345".toList (by decide)) (by decide)⟩

/-- C16 (amended): for every day of the year n in 0..366 and every scope,
`base_7_str n` and `to_scope (base_7_str n) scope` have at most 4 characters;
they have at most 3 characters when n ≤ 342, and exactly 4 when n ≥ 343. -/
theorem base_7_str_calendar_digits (n : Int) (scope : Scope) (h0 : 0 ≤ n) (h1 : n ≤ 366) :
    ∃ r, to_scope (base_7_str n) scope = some r ∧
      (base_7_str n).length ≤ 4 ∧ r.length ≤ 4 ∧
      (n ≤ 342 → (base_7_str n).length ≤ 3 ∧ r.length ≤ 3) ∧
      (343 ≤ n → (base_7_str n).length = 4 ∧ r.length = 4) := by
  obtain ⟨hl1, hl4⟩ := base_7_str_length_cal n h0 h1
  have hne : base_7_str n ≠ [] := by
    intro h; rw [h] at hl1; simp at hl1
  have hs : scope.val ≤ 2 := by cases scope <;> decide
  have hmax : n ≤ INT_MAX := by unfold INT_MAX; omega
  refine ⟨_, to_scope_short _ scope hl4 (Or.inl hne), hl4, ?_, ?_, ?_⟩
  · rw [pad_then_overwrite_length]; omega
  · intro h
    have h3 : (base_7_str n).length ≤ 3 := by
      rcases eq_or_lt_of_le h0 with e | hpos
      · subst e; decide
      · rw [base_7_str_length_log n hpos hmax]
        have : Nat.log 7 n.toNat < 3 :=
          Nat.log_lt_of_lt_pow (by omega) (by norm_num; omega)
        omega
    rw [pad_then_overwrite_length]
    exact ⟨h3, by omega⟩
  · intro h
    have h4 : (base_7_str n).length = 4 :=
      base_7_str_length n 3 hmax (by norm_num; omega) (by norm_num; omega)
    rw [pad_then_overwrite_length]
    exact ⟨h4, by omega⟩

/-- Witness of C16 (amended): day 342 has three digits, day 366 has four. -/
theorem base_7_str_calendar_digits_witness :
    base_7_str 342 = "666".toList ∧ base_7_str 366 = "1032".toList ∧
    (∃ r, to_scope (base_7_str 342) .scope_7month = some r ∧ r.length ≤ 3) ∧
    (∃ r, to_scope (base_7_str 366) .scope_week = some r ∧ r.length = 4) := by
  obtain ⟨r, hr, -, -, h3, -⟩ :=
    base_7_str_calendar_digits 342 .scope_7month (by decide) (by decide)
  obtain ⟨q, hq, -, -, -, h4⟩ :=
    base_7_str_calendar_digits 366 .scope_week (by decide) (by decide)
  exact ⟨by decide, by decide, ⟨r, hr, (h3 (by decide)).2⟩, ⟨q, hq, (h4 (by decide)).2⟩⟩

/-- C16 as stated fails: day 343 is the first with four base-7 digits, and the
scoped strings of days 343..366 have four characters. -/
theorem base_7_str_calendar_digits_counterexample :
    base_7_str 343 = "1000".toList ∧ ¬ ((base_7_str 343).length ≤ 3) ∧
    to_scope (base_7_str 366) .scope_week = some "103-".toList ∧
    ¬ (∀ n : Int, 0 ≤ n → n ≤ 366 → (base_7_str n).length ≤ 3) :=
  ⟨by decide, by decide, by decide,
    fun h => absurd (h 343 (by decide) (by decide)) (by decide)⟩

/-- C17 (amended): `to_scope "5" scope_7month` is "0--": the string is padded
to three characters, and the last two are replaced. -/
theorem to_scope_7month_one_digit :
    to_scope "5".toList .scope_7month = some "0--".toList ∧
    to_scope_prefix_len "5".toList .scope_7month = 2 := by
  constructor <;> decide

/-- C17 as stated fails: the result has three characters, not two. -/
theorem to_scope_7month_one_digit_counterexample :
    to_scope "5".toList .scope_7month ≠ some "--".toList := by
  decide

/-! ## Scopes and integer division -/

theorem base_7_val_str (n : Int) (h0 : 0 ≤ n) (h1 : n ≤ INT_MAX) :
    base_7_val (base_7_str n) = n := by
  rcases eq_or_lt_of_le h0 with h | h
  · subst h; decide
  · exact (base_7_str_pos n h h1).2.1

theorem base_7_str_injective (a b : Int) (ha : 0 ≤ a) (hb : 0 ≤ b) (ha1 : a ≤ INT_MAX)
    (hb1 : b ≤ INT_MAX) (h : base_7_str a = base_7_str b) : a = b := by
  rw [← base_7_val_str a ha ha1, ← base_7_val_str b hb hb1, h]

theorem to_scope_div_nat : ∀ d : Nat, d < 367 →
    to_scope (base_7_str (d : Int)) .scope_week = some (base_7_str ((d : Int) / 7) ++ ['-']) ∧
    to_scope (base_7_str (d : Int)) .scope_7month
      = some (base_7_str ((d : Int) / 49) ++ ['-', '-']) := by
  decide!

theorem to_scope_div (n : Int) (h0 : 0 ≤ n) (h1 : n ≤ 366) :
    to_scope (base_7_str n) .scope_week = some (base_7_str (n / 7) ++ ['-']) ∧
    to_scope (base_7_str n) .scope_7month = some (base_7_str (n / 49) ++ ['-', '-']) := by
  have h := to_scope_div_nat n.toNat (by omega)
  rwa [Int.toNat_of_nonneg h0] at h

/-- C18: for every day of the year n in 0..366, `to_scope (base_7_str n)` is
`base_7_str (n / 7)` followed by "-" under `scope_week`, and
`base_7_str (n / 49)` followed by "--" under `scope_7month`; two days have the
same week (7month) string exactly when they lie in the same block of 7 (49)
days. -/
theorem to_scope_integer_division (n m : Int) (h0 : 0 ≤ n) (h1 : n ≤ 366)
    (hm0 : 0 ≤ m) (hm1 : m ≤ 366) :
    to_scope (base_7_str n) .scope_week = some (base_7_str (Int.tdiv n 7) ++ ['-']) ∧
    to_scope (base_7_str n) .scope_7month
      = some (base_7_str (Int.tdiv n 49) ++ ['-', '-']) ∧
    (to_scope (base_7_str n) .scope_week = to_scope (base_7_str m) .scope_week
      ↔ Int.tdiv n 7 = Int.tdiv m 7) ∧
    (to_scope (base_7_str n) .scope_7month = to_scope (base_7_str m) .scope_7month
      ↔ Int.tdiv n 49 = Int.tdiv m 49) := by
  obtain ⟨hw, h7⟩ := to_scope_div n h0 h1
  obtain ⟨hmw, hm7⟩ := to_scope_div m hm0 hm1
  rw [Int.tdiv_eq_ediv h0 (by norm_num), Int.tdiv_eq_ediv h0 (by norm_num),
    Int.tdiv_eq_ediv hm0 (by norm_num), Int.tdiv_eq_ediv hm0 (by norm_num)]
  refine ⟨hw, h7, ?_, ?_⟩
  · rw [hw, hmw]
    constructor
    · intro h
      simp only [Option.some.injEq] at h
      exact base_7_str_injective _ _ (by omega) (by omega) (by unfold INT_MAX; omega)
        (by unfold INT_MAX; omega) (List.append_cancel_right h)
    · intro h; rw [h]
  · rw [h7, hm7]
    constructor
    · intro h
      simp only [Option.some.injEq] at h
      exact base_7_str_injective _ _ (by omega) (by omega) (by unfold INT_MAX; omega)
        (by unfold INT_MAX; omega) (List.append_cancel_right h)
    · intro h; rw [h]

/-- Witness of C18: days 5 and 6 share their week, days 6 and 7 do not; day
366 lies in week 52 and 7month 7. -/
theorem to_scope_integer_division_witness :
    to_scope (base_7_str 5) .scope_week = some "0-".toList ∧
    to_scope (base_7_str 6) .scope_week = some "0-".toList ∧
    to_scope (base_7_str 7) .scope_week = some "1-".toList ∧
    base_7_str (Int.tdiv 366 7) = "103".toList ∧ base_7_str (Int.tdiv 366 49) = "10".toList ∧
    to_scope (base_7_str 366) .scope_week = some (base_7_str (Int.tdiv 366 7) ++ ['-']) ∧
    to_scope (base_7_str 366) .scope_7month
      = some (base_7_str (Int.tdiv 366 49) ++ ['-', '-']) ∧
    (to_scope (base_7_str 366) .scope_week = to_scope (base_7_str 364) .scope_week
      ↔ Int.tdiv 366 7 = Int.tdiv 364 7) := by
  obtain ⟨h1, h2, h3, -⟩ :=
    to_scope_integer_division 366 364 (by decide) (by decide) (by decide) (by decide)
  exact ⟨by decide, by decide, by decide, by decide, by decide, h1, h2, h3⟩

/-! ## The buffers on calendar input -/

/-- C19: for every day of the year n in 0..366 and every scope, the padding
count of `to_scope` lies in 0..2, so that the read of the prefix is inside
the literal; the string built by `to_scope` has 1 to 4 characters and fits
the 5 bytes of `out_str` with its terminator; and the offset
`4 - strlen(str)` of `zero_pad` lies in 0..3, its copy ends inside the 5 bytes
and `zero_pad` is defined. -/
theorem calendar_buffers_safe (n : Int) (scope : Scope) (h0 : 0 ≤ n) (h1 : n ≤ 366) :
    0 ≤ to_scope_prefix_len (base_7_str n) scope ∧
    to_scope_prefix_len (base_7_str n) scope ≤ 2 ∧
    (∃ pre, to_scope_prefix (to_scope_prefix_len (base_7_str n) scope) = some pre) ∧
    ∃ r, to_scope (base_7_str n) scope = some r ∧
      1 ≤ r.length ∧ r.length ≤ 4 ∧ r.length + 1 ≤ 5 ∧
      0 ≤ 4 - (r.length : Int) ∧ 4 - (r.length : Int) ≤ 3 ∧
      4 - (r.length : Int) + (r.length : Int) + 1 ≤ 5 ∧
      ∃ p, zero_pad r = some p := by
  obtain ⟨hl1, hl4⟩ := base_7_str_length_cal n h0 h1
  have hs : scope.val ≤ 2 := by cases scope <;> decide
  have hp := to_scope_prefix_len_eq (base_7_str n) scope (by omega)
  obtain ⟨r, hr, hr1, hr4⟩ := to_scope_cal n h0 h1 scope
  obtain ⟨p, hp4, -⟩ := zero_pad_some r hr4
  have hle : to_scope_prefix_len (base_7_str n) scope ≤ 2 := by rw [hp]; omega
  have hge : 0 ≤ to_scope_prefix_len (base_7_str n) scope := by rw [hp]; omega
  refine ⟨hge, hle, ?_, r, hr, hr1, hr4, by omega, by omega, by omega, by omega, p, hp4⟩
  unfold to_scope_prefix
  rw [if_pos ⟨by omega, by omega⟩]
  exact ⟨_, rfl⟩

/-- Witness of C19: a one-digit day under `scope_7month` has the largest
padding count, and the last day of a leap year fills `out_str`. -/
theorem calendar_buffers_safe_witness :
    to_scope_prefix_len (base_7_str 5) .scope_7month = 2 ∧
    to_scope (base_7_str 366) .scope_day = some "1032".toList ∧
    zero_pad "1032".toList = some "1032".toList ∧
    ∃ r, to_scope (base_7_str 5) .scope_7month = some r ∧ 1 ≤ r.length ∧ r.length ≤ 4 ∧
      ∃ p, zero_pad r = some p := by
  obtain ⟨-, -, -, r, hr, h1, h4, -, -, -, -, p, hp⟩ :=
    calendar_buffers_safe 5 .scope_7month (by decide) (by decide)
  exact ⟨by decide, by decide, by decide, r, hr, h1, h4, p, hp⟩

end SevenDate
